import Mathlib

/-!
# Verification of the easy-mcp core services

A shallow embedding, in Lean 4, of the core logic of the easy-mcp server:

* a deep-embedded mini-language standing in for the Python source fragments
  that the execution engine runs with `exec` (`api/services/tool_service.py`,
  `execute_tool`);
* the persisted data model (`api/models/tb_func.py`, `api/models/tb_tool.py`);
* the dependency-cycle check (`api/services/func_service.py`,
  `check_circular_dependency`);
* deploy / rollback / delete for tools and functions
  (`func_service.py`, `tool_service.py`);
* the execution engine and its execution-log side effect
  (`tool_service.py`, `tool_log_service.py`);
* the MCP protocol adapter (`api/routers/mcp_router.py`).

Database sessions are modelled as an explicit `Store` value threaded through
the operations; `get_current_unix_ms` clock reads become explicit integer
arguments; Python exceptions become `Except` values.  JSON text fields are
abstracted by what the source reads off them: Python truthiness and the
result of `json.loads`.
-/

namespace EasyMcp

/-! ## The mini-language run by the execution engine

The engine concatenates stored source fragments and runs them with `exec`
under redirected stdout/stderr, then reads the `result` binding back from
the namespace.  We embed the fragment language deeply: expressions,
statements, a namespace of values held as an insertion-ordered association
list (Python `dict` semantics), and a statement interpreter that
accumulates printed lines and can fault. -/

/-- Expressions of the embedded fragment language. -/
inductive Expr where
  | intLit (n : Int)
  | strLit (s : String)
  | name (x : String)
  | call0 (f : String)
  | add (a b : Expr)

/-- Runtime values.  `fn body` is a nullary `def f(): return body`
function object; `dict` is an insertion-ordered mapping; `pynone` is
Python `None`. -/
inductive Val where
  | int (n : Int)
  | str (s : String)
  | pynone
  | dict (kvs : List (String × Val))
  | fn (body : Expr)

/-- Statements of the embedded fragment language. -/
inductive Stmt where
  | assign (x : String) (e : Expr)
  | defn (f : String) (body : Expr)
  | print (e : Expr)
  | raiseExc (msg : String)

/-- A namespace (Python `dict`): insertion-ordered association list. -/
abbrev Env := List (String × Val)

/-- Mirror of `d[k]` lookup: first binding wins (keys are kept unique by `pyUpsert`). -/
def pyGet {α : Type} (d : List (String × α)) (k : String) : Option α :=
  match d with
  | [] => Option.none
  | (k2, v) :: rest => if k2 = k then some v else pyGet rest k

/-- Mirror of `d[k] = v`: replace in place if the key exists, else append —
Python `dict` insertion-order semantics. -/
def pyUpsert {α : Type} (d : List (String × α)) (k : String) (v : α) :
    List (String × α) :=
  match d with
  | [] => [(k, v)]
  | (k2, w) :: rest =>
      if k2 = k then (k2, v) :: rest else (k2, w) :: pyUpsert rest k v

/-- Mirror of `d.update(other)`: upsert every pair of `other` in order (last wins). -/
def pyDictUpdate (d : List (String × Val)) : List (String × Val) → List (String × Val)
  | [] => d
  | (k, v) :: rest => pyDictUpdate (pyUpsert d k v) rest

/-- Python truthiness of a value, as used by `if request_params:` etc. -/
def pyTruthy : Val → Bool
  | .int n => n != 0
  | .str s => s ≠ ""
  | .pynone => false
  | .dict kvs => !kvs.isEmpty
  | .fn _ => true

/-- Mirror of `str(v)` for the values we model. -/
def pyStr : Val → String
  | .int n => toString n
  | .str s => s
  | .pynone => "None"
  | .dict _ => "<dict>"
  | .fn _ => "<function>"

/-- One level of expression evaluation; `callFn` evaluates the body of a
called function object (one call-stack frame deeper). -/
def evalWith (callFn : Expr → Except String Val) (env : Env) :
    Expr → Except String Val
  | .intLit n => .ok (.int n)
  | .strLit s => .ok (.str s)
  | .name x =>
    match pyGet env x with
    | some v => .ok v
    | none => .error ("NameError: name " ++ x ++ " is not defined")
  | .call0 f =>
    match pyGet env f with
    | some (.fn body) => callFn body
    | some _ => .error ("TypeError: " ++ f ++ " is not callable")
    | none => .error ("NameError: name " ++ f ++ " is not defined")
  | .add a b =>
    match evalWith callFn env a, evalWith callFn env b with
    | .ok (.int m), .ok (.int n) => .ok (.int (m + n))
    | .ok (.str s), .ok (.str t) => .ok (.str (s ++ t))
    | .error m, _ => .error m
    | _, .error m => .error m
    | _, _ => .error "TypeError: unsupported operand types for +"

/-- Expression evaluation.  The fuel bounds the call-stack depth exactly as
CPython's recursion limit does: running out of fuel is a `RecursionError`
fault, not a distinguished outcome. -/
def evalExpr : Nat → Env → Expr → Except String Val
  | 0, _, _ => .error "RecursionError: maximum recursion depth exceeded"
  | fuel + 1, env, e => evalWith (fun body => evalExpr fuel env body) env e

/-- One statement.  Returns the updated namespace and output lines, or a
fault message. -/
def execStmt (fuel : Nat) (env : Env) (out : List String) :
    Stmt → Except String (Env × List String)
  | .assign x e =>
    match evalExpr fuel env e with
    | .error m => .error m
    | .ok v => .ok (pyUpsert env x v, out)
  | .defn f body => .ok (pyUpsert env f (.fn body), out)
  | .print e =>
    match evalExpr fuel env e with
    | .error m => .error m
    | .ok v => .ok (env, out ++ [pyStr v])
  | .raiseExc m => .error m

/-- Run a statement list.  The output buffer lives outside the faulting
unit (as the `StringIO` buffer does in the source), so the lines printed
before a fault are reported alongside the fault. -/
def runProg (fuel : Nat) : List Stmt → Env → List String →
    (Except String Env) × List String
  | [], env, out => (.ok env, out)
  | s :: rest, env, out =>
    match execStmt fuel env out s with
    | .error m => (.error m, out)
    | .ok (env2, out2) => runProg fuel rest env2 out2

/-! ## Data model (api/models)

Rows of the relational schema.  Clock values (`*_at`, UnixMS) are `Int`;
the JSON text columns `tool.parameters` and `config.conf_value` are
abstracted by the only two things the source ever does with them —
truthiness tests and `json.loads` — via three-way fields. -/

/-- Abstraction of a stored JSON text: `absent` is falsy text (`None` or
empty), `invalid` is non-empty text that fails `json.loads`, and
`parsed kvs` is text that parses to the object `kvs`. -/
inductive JsonField where
  | absent
  | invalid (raw : String)
  | parsed (kvs : List (String × Val))

/-- Mirror of `tb_func` row. -/
structure TbFunc where
  id : Nat
  name : String
  description : Option String
  code : List Stmt
  current_version : Option Nat
  created_at : Int
  updated_at : Int
  created_by : Option String
  updated_by : Option String

/-- Mirror of `tb_func_deploy` row (immutable snapshot). -/
structure TbFuncDeploy where
  func_id : Nat
  version : Nat
  code : List Stmt
  description : Option String
  created_at : Int
  updated_at : Int
  created_by : Option String
  updated_by : Option String

/-- Mirror of `tb_func_depends` row (dependency edge). -/
structure TbFuncDepends where
  func_id : Nat
  depends_on_func_id : Nat
  created_at : Int
  updated_at : Int
  created_by : Option String
  updated_by : Option String

/-- Mirror of `tb_tool` row. -/
structure TbTool where
  id : Nat
  name : String
  description : Option String
  type : String
  setting : String
  parameters : JsonField
  code : List Stmt
  is_enabled : Bool
  current_version : Option Nat
  created_at : Int
  updated_at : Int
  created_by : Option String
  updated_by : Option String

/-- Mirror of `tb_tool_deploy` row (immutable snapshot). -/
structure TbToolDeploy where
  tool_id : Nat
  version : Nat
  type : String
  setting : String
  parameters : JsonField
  code : List Stmt
  description : Option String
  created_at : Int
  updated_at : Int
  created_by : Option String
  updated_by : Option String

/-- Mirror of `tb_tool_func` association row (order of rows = creation order). -/
structure TbToolFunc where
  tool_id : Nat
  func_id : Nat
  created_at : Int
  updated_at : Int
  created_by : Option String
  updated_by : Option String

/-- Mirror of `tb_tool_config` association row. -/
structure TbToolConfig where
  tool_id : Nat
  config_id : Nat
  created_at : Int
  updated_at : Int
  created_by : Option String
  updated_by : Option String

/-- Mirror of `tb_config` row. -/
structure TbConfig where
  id : Nat
  name : String
  description : Option String
  conf_value : JsonField
  created_at : Int
  updated_at : Int
  created_by : Option String
  updated_by : Option String

/-- Mirror of `tb_tool_log` row (append-only execution log). -/
structure TbToolLog where
  tool_name : String
  tool_id : Option Nat
  call_type : String
  request_time : Int
  response_time : Option Int
  duration_ms : Option Int
  is_success : Bool
  error_message : Option String
  request_params : Option Val
  response_data : Option Val
  created_at : Int

/-- The persisted store: one database session's view of all tables.
`next_func_id` models the autoincrement primary-key counter of `tb_func`. -/
structure Store where
  funcs : List TbFunc
  func_deploys : List TbFuncDeploy
  func_depends : List TbFuncDepends
  tools : List TbTool
  tool_deploys : List TbToolDeploy
  tool_funcs : List TbToolFunc
  tool_configs : List TbToolConfig
  configs : List TbConfig
  tool_logs : List TbToolLog
  next_func_id : Nat

/-! ## Catalog lookups (the plain SELECTs of the services) -/

def get_func_by_id (st : Store) (func_id : Nat) : Option TbFunc :=
  st.funcs.find? (fun f => f.id == func_id)

def get_func_by_name (st : Store) (name : String) : Option TbFunc :=
  st.funcs.find? (fun f => f.name == name)

def get_tool_by_id (st : Store) (tool_id : Nat) : Option TbTool :=
  st.tools.find? (fun t => t.id == tool_id)

def get_tool_by_name (st : Store) (name : String) : Option TbTool :=
  st.tools.find? (fun t => t.name == name)

/-- Mirror of `ToolService.get_tool_funcs`: functions joined through the
`tb_tool_func` association rows, in association-row order. -/
def get_tool_funcs (st : Store) (tool_id : Nat) : List TbFunc :=
  (st.tool_funcs.filter (fun e => e.tool_id == tool_id)).filterMap
    (fun e => get_func_by_id st e.func_id)

/-- Mirror of `ToolService.get_tool_configs`: configs joined through the
`tb_tool_config` association rows, in association-row order. -/
def get_tool_configs (st : Store) (tool_id : Nat) : List TbConfig :=
  (st.tool_configs.filter (fun e => e.tool_id == tool_id)).filterMap
    (fun e => st.configs.find? (fun c => c.id == e.config_id))

/-! ## Execution engine (`ToolService.execute_tool`) -/

/-- The `func_code` dict of `execute_tool`: `func_code[func.name] = func.code`
over the tool's functions in association order — a keyed upsert, so a later
function with the same name overwrites the code but keeps the position. -/
def funcCodeDict (funcs : List TbFunc) : List (String × List Stmt) :=
  funcs.foldl (fun d f => pyUpsert d f.name f.code) []

/-- The combined unit: all dependency function sources (in `func_code`
value order), then the tool's own source. -/
def combinedCode (st : Store) (tool : TbTool) : List Stmt :=
  ((funcCodeDict (get_tool_funcs st tool.id)).map (fun kv => kv.2)).flatten
    ++ tool.code

/-- The `config` binding built by `execute_tool`: `None` when no config is
attached; otherwise every attached config's stored JSON value is parsed
(falsy and malformed values are skipped with a warning) and merged into one
dict, later configs overriding earlier ones. -/
def mergedConfig (st : Store) (tool_id : Nat) : Val :=
  let cfgs := get_tool_configs st tool_id
  if cfgs.isEmpty then Val.pynone
  else
    Val.dict (cfgs.foldl
      (fun acc c =>
        match c.conf_value with
        | .absent => acc
        | .invalid _ => acc
        | .parsed kvs => pyDictUpdate acc kvs) [])

/-- The execution namespace: exactly the two external bindings
`parameters` and `config`. -/
def baseEnv (parameters : Val) (config : Val) : Env :=
  [("parameters", parameters), ("config", config)]

/-- The exceptions `execute_tool` can raise. -/
inductive ExecExc where
  | notFound (tool_id : Nat)
  | execFail (tool_id : Nat) (message : String)

/-- Mirror of `str(e)` of an execution exception (`ServiceError.description`; the
source's literals are Chinese, rendered here in ASCII). -/
def execExcStr : ExecExc → String
  | .notFound tool_id => "tool not found: " ++ toString tool_id
  | .execFail _ message => "tool execution failed: " ++ message

/-- The wrapped message built when the combined unit faults:
`f"Error executing tool: {str(e)}\n{traceback.format_exc()}"`; the
traceback text is runtime-specific and abstracted by a marker. -/
def wrapExecMessage (m : String) : String :=
  "Error executing tool: " ++ m ++ "\ntraceback"

/-- Mirror of `ToolLogService.create_log`: serialize the payloads (falsy payloads
are stored as NULL) and append one row.  `created_at` is a clock read at
log-write time, modelled by `response_time`. -/
def create_log (st : Store) (tool_name : String) (call_type : String)
    (tool_id : Option Nat) (request_time response_time : Int)
    (duration_ms : Int) (is_success : Bool) (error_message : Option String)
    (request_params : Val) (response_data : Option Val) : Store :=
  { st with tool_logs := st.tool_logs ++
      [{ tool_name := tool_name
         tool_id := tool_id
         call_type := call_type
         request_time := request_time
         response_time := some response_time
         duration_ms := some duration_ms
         is_success := is_success
         error_message := error_message
         request_params := if pyTruthy request_params then some request_params
                           else Option.none
         response_data := match response_data with
                          | some v => if pyTruthy v then some v else Option.none
                          | none => Option.none
         created_at := response_time }] }

/-- The `finally` block of `execute_tool`: one `create_log` attempt whose
own failure is caught and discarded.  `logOk` injects the fate of that
write: `false` means the write raised, leaving the store unchanged. -/
def recordToolLog (st : Store) (logOk : Bool) (tool_name : String)
    (call_type : String) (tool_id : Nat) (request_time response_time : Int)
    (is_success : Bool) (error_message : Option String)
    (request_params : Val) (response_data : Option Val) : Store :=
  if logOk then
    create_log st tool_name call_type (some tool_id) request_time
      response_time (response_time - request_time) is_success error_message
      request_params response_data
  else st

/-- Mirror of `ToolService.execute_tool`.  `fuel` is the interpreter recursion limit,
`t_req`/`t_resp` the two `get_current_unix_ms` reads, `logOk` the fate of
the log write.  Returns the primary outcome — `(result, logs)` or the
raised exception — together with the store after the `finally` block. -/
def execute_tool (fuel : Nat) (st : Store) (tool_id : Nat)
    (parameters : Val) (call_type : String) (t_req t_resp : Int)
    (logOk : Bool) : Except ExecExc (Option Val × List String) × Store :=
  match get_tool_by_id st tool_id with
  | none =>
    let exc := ExecExc.notFound tool_id
    (.error exc,
      recordToolLog st logOk ("tool_" ++ toString tool_id) call_type tool_id
        t_req t_resp false (some (execExcStr exc)) parameters Option.none)
  | some tool =>
    let ns := baseEnv parameters (mergedConfig st tool_id)
    match runProg fuel (combinedCode st tool) ns [] with
    | (.error m, _out) =>
      let exc := ExecExc.execFail tool_id (wrapExecMessage m)
      (.error exc,
        recordToolLog st logOk tool.name call_type tool_id t_req t_resp
          false (some (execExcStr exc)) parameters Option.none)
    | (.ok env, out) =>
      let logs := out.filter (fun l => l ≠ "")
      let result := pyGet env "result"
      (.ok (result, logs),
        recordToolLog st logOk tool.name call_type tool_id t_req t_resp
          true Option.none parameters result)

/-- The debug endpoint's response body (`ToolDebugResponse`). -/
structure ToolDebugResponse where
  result : Option Val
  logs : List String
  success : Bool
  error_message : Option String

/-- Mirror of `tool_router.debug_tool`: run `execute_tool` with `call_type="debug"`;
a `ToolExecutionError` is converted into a `success=False` body whose
`logs` fall back to `[]` when the local was never bound (it never is,
since the raise happens inside `execute_tool`). -/
def debug_tool (fuel : Nat) (st : Store) (tool_id : Nat) (parameters : Val)
    (t_req t_resp : Int) (logOk : Bool) :
    Except ExecExc ToolDebugResponse × Store :=
  match execute_tool fuel st tool_id parameters "debug" t_req t_resp logOk with
  | (.ok (result, logs), st2) =>
    (.ok { result := result, logs := logs, success := true,
           error_message := Option.none }, st2)
  | (.error (.execFail tid m), st2) =>
    (.ok { result := Option.none, logs := [], success := false,
           error_message := some (execExcStr (.execFail tid m)) }, st2)
  | (.error e, st2) => (.error e, st2)

/-! ## Dependency-cycle check (`FuncService.check_circular_dependency`)

The source is an unbounded recursive walk over the *persisted* edges.  We
embed it with an explicit stack-depth fuel and prove (below) that the fuel
`E.length + 2` always suffices, so the `none` (out-of-fuel) result is dead
at that fuel. -/

/-- The persisted dependency edges as `(func_id, depends_on_func_id)`. -/
abbrev EdgeList := List (Nat × Nat)

/-- The payload of `CircularDependencyError`: the originating `func_id`
and the accumulated `dependency_path`. -/
structure CircErr where
  funcId : Nat
  path : List Nat
deriving DecidableEq, Repr

/-- The error's reported path (`description` renders
`dependency_path + [func_id]`). -/
def reportedPath (e : CircErr) : List Nat :=
  e.path ++ [e.funcId]

/-- Persisted outgoing edges of `d`: the `nested_depend_ids` query. -/
def depsOf (E : EdgeList) (d : Nat) : List Nat :=
  (E.filter (fun e => e.1 == d)).map (fun e => e.2)

/-- The recursive loop of `check_circular_dependency`, past its entry
`func_id in depend_ids` test: for each dependency in order, raise if it is
already on the current path, else fetch its persisted edges and (when
non-empty) recurse with the dependency appended to the path.  The entry
test of the recursive call is inlined.  `none` = out of fuel. -/
def checkList (E : EdgeList) (A : Nat) :
    Nat → List Nat → List Nat → Option (Except CircErr Unit)
  | _, [], _ => some (.ok ())
  | 0, d :: rest, path =>
    if d ∈ path then some (.error ⟨A, path ++ [d]⟩)
    else if (depsOf E d).isEmpty then checkList E A 0 rest path
    else Option.none
  | fuel + 1, d :: rest, path =>
    if d ∈ path then some (.error ⟨A, path ++ [d]⟩)
    else
      let nested := depsOf E d
      if nested.isEmpty then checkList E A (fuel + 1) rest path
      else if A ∈ nested then some (.error ⟨A, path ++ [d]⟩)
      else
        match checkList E A fuel nested (path ++ [d]) with
        | Option.none => Option.none
        | some (.error e) => some (.error e)
        | some (.ok _) => checkList E A (fuel + 1) rest path
termination_by fuel deps _ => (fuel, deps.length)

/-- Mirror of `check_circular_dependency(func_id, depend_ids, path)`: raise at once
when `func_id` is among the dependencies (with the current path), else run
the loop. -/
def checkCircFuel (E : EdgeList) (A : Nat) (fuel : Nat)
    (deps path : List Nat) : Option (Except CircErr Unit) :=
  if A ∈ deps then some (.error ⟨A, path⟩) else checkList E A fuel deps path

/-- Fuel that provably always suffices (`checkCircFuel_isSome` below). -/
def suffFuel (E : EdgeList) : Nat := E.length + 2

/-- The service entry point: the unbounded Python recursion, realised at
the provably sufficient fuel; the `none` fallback is dead code. -/
def check_circular_dependency (E : EdgeList) (A : Nat) (deps : List Nat) :
    Except CircErr Unit :=
  match checkCircFuel E A (suffFuel E) deps [] with
  | some r => r
  | Option.none => .ok ()

/-- The edge list of a store. -/
def dependsEdges (st : Store) : EdgeList :=
  st.func_depends.map (fun d => (d.func_id, d.depends_on_func_id))

/-! ## Version store (`deploy`, `rollback`, history is not needed here) -/

/-- The function-service exceptions used below. -/
inductive FuncExc where
  | notFound (func_id : Nat)
  | alreadyExists (name : String)
  | versionNotFound (func_id : Nat) (version : Nat)
  | inUse (func_id : Nat) (used_by_tools used_by_funcs : List (Nat × String))
  | circular (e : CircErr)

/-- The tool-service exceptions used below. -/
inductive ToolExc where
  | notFound (tool_id : Nat)
  | versionNotFound (tool_id : Nat) (version : Nat)

/-- Mirror of `version = 1; if entity.current_version: version = current_version + 1`
(Python truthiness: `None` and `0` are both falsy). -/
def nextVersion : Option Nat → Nat
  | some v => if v = 0 then 1 else v + 1
  | none => 1

/-- Replace the row with the given id (ids are unique). -/
def replaceFunc (funcs : List TbFunc) (func_id : Nat) (f2 : TbFunc) :
    List TbFunc :=
  funcs.map (fun g => if g.id == func_id then f2 else g)

/-- Replace the row with the given id (ids are unique). -/
def replaceTool (tools : List TbTool) (tool_id : Nat) (t2 : TbTool) :
    List TbTool :=
  tools.map (fun g => if g.id == tool_id then t2 else g)

/-- Mirror of `FuncService.deploy_func`: read the live code, write a snapshot at
`nextVersion`, advance `current_version`. -/
def deploy_func (st : Store) (func_id : Nat) (description : Option String)
    (user : Option String) (now : Int) :
    Except FuncExc (Store × TbFuncDeploy) :=
  match get_func_by_id st func_id with
  | none => .error (.notFound func_id)
  | some f =>
    let version := nextVersion f.current_version
    let dep : TbFuncDeploy :=
      { func_id := f.id, version := version, code := f.code,
        description := description, created_at := now, updated_at := now,
        created_by := user, updated_by := user }
    let f2 := { f with current_version := some version }
    .ok ({ st with funcs := replaceFunc st.funcs func_id f2,
                   func_deploys := st.func_deploys ++ [dep] }, dep)

/-- Mirror of `ToolService.deploy_tool`: as for functions, also snapshotting the
parameter schema, type and settings. -/
def deploy_tool (st : Store) (tool_id : Nat) (description : Option String)
    (user : Option String) (now : Int) :
    Except ToolExc (Store × TbToolDeploy) :=
  match get_tool_by_id st tool_id with
  | none => .error (.notFound tool_id)
  | some t =>
    let version := nextVersion t.current_version
    let dep : TbToolDeploy :=
      { tool_id := t.id, version := version, parameters := t.parameters,
        code := t.code, type := t.type, setting := t.setting,
        description := description, created_at := now, updated_at := now,
        created_by := user, updated_by := user }
    let t2 := { t with current_version := some version }
    .ok ({ st with tools := replaceTool st.tools tool_id t2,
                   tool_deploys := st.tool_deploys ++ [dep] }, dep)

/-- Mirror of `FuncService.rollback_func`: restore the live code from the snapshot
at `version`; no new snapshot, `current_version` untouched. -/
def rollback_func (st : Store) (func_id : Nat) (version : Nat)
    (user : Option String) (now : Int) : Except FuncExc (Store × TbFunc) :=
  match get_func_by_id st func_id with
  | none => .error (.notFound func_id)
  | some f =>
    match st.func_deploys.find?
        (fun d => d.func_id == func_id && d.version == version) with
    | none => .error (.versionNotFound func_id version)
    | some dep =>
      let f2 := { f with code := dep.code, updated_at := now,
                         updated_by := user }
      .ok ({ st with funcs := replaceFunc st.funcs func_id f2 }, f2)

/-- Mirror of `ToolService.rollback_tool`: restore live parameters and code from the
snapshot at `version`; `setting`, `type`, `is_enabled` and
`current_version` stay as they are, no new snapshot. -/
def rollback_tool (st : Store) (tool_id : Nat) (version : Nat)
    (user : Option String) (now : Int) : Except ToolExc (Store × TbTool) :=
  match get_tool_by_id st tool_id with
  | none => .error (.notFound tool_id)
  | some t =>
    match st.tool_deploys.find?
        (fun d => d.tool_id == tool_id && d.version == version) with
    | none => .error (.versionNotFound tool_id version)
    | some dep =>
      let t2 := { t with parameters := dep.parameters, code := dep.code,
                         updated_at := now, updated_by := user }
      .ok ({ st with tools := replaceTool st.tools tool_id t2 }, t2)

/-! ## Delete paths and `check_func_in_use` -/

/-- Mirror of `FuncService.check_func_in_use`.  Faithful to the source, including
its table mix-up: the "tools using it" detail pass resolves each
association row's `tool_id` with `select(TbFunc).where(TbFunc.id ==
tool_func.tool_id)` — i.e. against the *function* table — so a
referencing tool only registers when some function happens to share its
id.  The incoming-function pass resolves `func_depend.func_id` against
the function table, which is the right one. -/
def check_func_in_use (st : Store) (func_id : Nat) :
    Bool × List (Nat × String) × List (Nat × String) :=
  let tool_funcs := st.tool_funcs.filter (fun e => e.func_id == func_id)
  let func_depends :=
    st.func_depends.filter (fun e => e.depends_on_func_id == func_id)
  let tools_using := tool_funcs.filterMap
    (fun e => (get_func_by_id st e.tool_id).map (fun f => (f.id, f.name)))
  let funcs_using := func_depends.filterMap
    (fun e => (get_func_by_id st e.func_id).map (fun f => (f.id, f.name)))
  (!tools_using.isEmpty || !funcs_using.isEmpty, tools_using, funcs_using)

/-- Mirror of `FuncService.delete_func`: refuse while `check_func_in_use` reports
use; on success delete only the `tb_func` row — the source issues no
deletes against `tb_func_deploy` or `tb_func_depends` and the models
declare no cascade. -/
def delete_func (st : Store) (func_id : Nat) :
    Except FuncExc (Store × TbFunc) :=
  match get_func_by_id st func_id with
  | none => .error (.notFound func_id)
  | some f =>
    match check_func_in_use st func_id with
    | (true, tools_using, funcs_using) =>
      .error (.inUse func_id tools_using funcs_using)
    | (false, _, _) =>
      .ok ({ st with funcs := st.funcs.filter (fun g => g.id != func_id) }, f)

/-- Mirror of `ToolService.delete_tool`: no in-use test (nothing in the schema
references a tool); explicitly cascades the tool's deploy rows and both
kinds of association rows, then the tool itself. -/
def delete_tool (st : Store) (tool_id : Nat) :
    Except ToolExc (Store × TbTool) :=
  match get_tool_by_id st tool_id with
  | none => .error (.notFound tool_id)
  | some t =>
    .ok ({ st with
            tool_deploys :=
              st.tool_deploys.filter (fun d => d.tool_id != tool_id),
            tool_funcs :=
              st.tool_funcs.filter (fun e => e.tool_id != tool_id),
            tool_configs :=
              st.tool_configs.filter (fun e => e.tool_id != tool_id),
            tools := st.tools.filter (fun g => g.id != tool_id) }, t)

/-! ## `FuncService.create_func` -/

/-- The request body of function creation. -/
structure FuncCreate where
  name : String
  description : Option String
  code : List Stmt
  depend_ids : List Nat

/-- Mirror of `FuncService.create_func`: refuse duplicate names; otherwise the new
row is committed *first*, and only then — when `depend_ids` is truthy —
is the cycle check run and are the edges inserted.  A
`CircularDependencyError` therefore leaves the already-committed function
behind with no edges.  Returns the outcome together with the store as the
transaction left it. -/
def create_func (st : Store) (data : FuncCreate) (user : Option String)
    (now : Int) : Except FuncExc TbFunc × Store :=
  match get_func_by_name st data.name with
  | some _ => (.error (.alreadyExists data.name), st)
  | none =>
    let fid := st.next_func_id
    let f : TbFunc :=
      { id := fid, name := data.name, description := data.description,
        code := data.code, current_version := Option.none,
        created_at := now, updated_at := now, created_by := user,
        updated_by := user }
    let st1 := { st with funcs := st.funcs ++ [f],
                         next_func_id := fid + 1 }
    if data.depend_ids.isEmpty then (.ok f, st1)
    else
      match check_circular_dependency (dependsEdges st1) fid
          data.depend_ids with
      | .error e => (.error (.circular e), st1)
      | .ok _ =>
        let edges := data.depend_ids.map (fun d =>
          ({ func_id := fid, depends_on_func_id := d, created_at := now,
             updated_at := now, created_by := user,
             updated_by := user } : TbFuncDepends))
        (.ok f, { st1 with func_depends := st1.func_depends ++ edges })

/-! ## Protocol adapter (`McpServerManager`) -/

/-- An MCP tool descriptor. -/
structure McpTool where
  name : String
  description : String
  inputSchema : Val

/-- A protocol content frame. -/
structure TextContent where
  type : String
  text : String

/-- Mirror of `_convert_to_mcp_tool`: falsy stored parameters become the empty
schema; parameters that fail `json.loads` make the conversion return
`None`; parsed parameters become the input schema. -/
def convert_to_mcp_tool (tool : TbTool) : Option McpTool :=
  match tool.parameters with
  | .absent => some { name := tool.name,
                      description := tool.description.getD "",
                      inputSchema := .dict [] }
  | .invalid _ => Option.none
  | .parsed kvs => some { name := tool.name,
                          description := tool.description.getD "",
                          inputSchema := .dict kvs }

/-- Insert keeping ids in descending order (`order_by(desc(TbTool.id))`). -/
def insertDescById (t : TbTool) : List TbTool → List TbTool
  | [] => [t]
  | u :: rest =>
      if u.id ≤ t.id then t :: u :: rest else u :: insertDescById t rest

/-- The tools as `query_tools` orders them: by id descending. -/
def sortDescById (tools : List TbTool) : List TbTool :=
  tools.foldr insertDescById []

/-- Mirror of `ToolService.query_tools(page, size)` restricted to what
`_get_enabled_tools` uses: the id-descending order, offset and limit. -/
def query_tools_page (st : Store) (page size : Nat) : List TbTool :=
  ((sortDescById st.tools).drop ((page - 1) * size)).take size

/-- Mirror of `_get_enabled_tools`: one page of 1000 tools, keep the enabled ones,
convert each, drop the conversions that failed. -/
def get_enabled_tools (st : Store) : List McpTool :=
  ((query_tools_page st 1 1000).filter (fun t => t.is_enabled)).filterMap
    convert_to_mcp_tool

/-- The errors `_process_tool_execution` can raise:
`ToolNotFoundError(name=...)`, and `McpToolExecutionError` for a disabled
tool or a failing execution. -/
inductive McpExc where
  | toolNotFound (name : String)
  | toolDisabled (name : String)
  | toolExecution (name : String) (message : String)

/-- Mirror of `str(e)` for the adapter's exceptions (ASCII rendering of the
source's Chinese literals). -/
def mcpExcStr : McpExc → String
  | .toolNotFound name => "tool not found: " ++ name
  | .toolDisabled name =>
      "mcp tool execution failed: " ++ name ++ ": tool disabled"
  | .toolExecution name message =>
      "mcp tool execution failed: " ++ name ++ ": " ++ message

/-- Mirror of `_process_tool_execution`: resolve by name (raise if absent), refuse a
disabled tool, else delegate to the engine and wrap any engine error. -/
def process_tool_execution (fuel : Nat) (st : Store) (name : String)
    (arguments : Val) (t_req t_resp : Int) (logOk : Bool) :
    Except McpExc (Option Val × List String) × Store :=
  match get_tool_by_name st name with
  | none => (.error (.toolNotFound name), st)
  | some tool =>
    if !tool.is_enabled then (.error (.toolDisabled name), st)
    else
      match execute_tool fuel st tool.id arguments "mcp" t_req t_resp
          logOk with
      | (.ok r, st2) => (.ok r, st2)
      | (.error e, st2) =>
        (.error (.toolExecution name (execExcStr e)), st2)

/-- Minimal JSON rendering (`json.dumps`) for the frames we model. -/
def jsonOfPairs (ps : List (String × String)) : String :=
  "\x7b" ++ String.intercalate ", "
    (ps.map (fun p => "\x22" ++ p.1 ++ "\x22: " ++ p.2)) ++ "\x7d"

/-- Mirror of `_format_result`: structured results are JSON-serialised, everything
else is stringified. -/
def format_result : Option Val → String
  | some (.dict kvs) => jsonOfPairs (kvs.map (fun kv => (kv.1, pyStr kv.2)))
  | some v => pyStr v
  | none => "None"

/-- The `{error: message}` frame built by `_execute_tool`'s handler.  (In
the source this frame omits the `type` keyword argument.) -/
def errorFrame (message : String) : TextContent :=
  { type := "text",
    text := jsonOfPairs [("error", "\x22" ++ message ++ "\x22")] }

/-- Mirror of `_execute_tool`: every outcome — absent tool, disabled tool, failing
execution, success — becomes a returned frame list; the catch-all handler
turns any raised exception into the `{error: message}` envelope. -/
def mcp_execute_tool (fuel : Nat) (st : Store) (name : String)
    (arguments : Val) (t_req t_resp : Int) (logOk : Bool) :
    List TextContent × Store :=
  match process_tool_execution fuel st name arguments t_req t_resp logOk with
  | (.error e, st2) => ([errorFrame (mcpExcStr e)], st2)
  | (.ok (result, logs), st2) =>
    let result_str := format_result result
    if logs.isEmpty then
      ([{ type := "text", text := result_str }], st2)
    else
      match result with
      | some (.dict kvs) =>
        ([{ type := "text",
            text := jsonOfPairs (kvs.map (fun kv => (kv.1, pyStr kv.2))) }],
          st2)
      | _ =>
        ([{ type := "text",
            text := jsonOfPairs [("result", "\x22" ++ result_str ++ "\x22")] }],
          st2)

/-! ## Directed-graph notions for the cycle check -/

/-- A (possibly empty) walk along the edges of `E`. -/
inductive Walk (E : EdgeList) : Nat → Nat → Prop
  | refl (a : Nat) : Walk E a a
  | step {a b c : Nat} (h : (a, b) ∈ E) (w : Walk E b c) : Walk E a c

/-- A walk of at least one step. -/
def StepWalk (E : EdgeList) (a c : Nat) : Prop :=
  ∃ b, (a, b) ∈ E ∧ Walk E b c

/-- The edge set contains a cycle: some edge whose endpoints are joined
back by a walk. -/
def Cyclic (E : EdgeList) : Prop :=
  ∃ p, p ∈ E ∧ Walk E p.2 p.1

def Acyclic (E : EdgeList) : Prop := ¬ Cyclic E

/-- The proposed new edges of a validation call. -/
def newEdges (A : Nat) (cands : List Nat) : EdgeList :=
  cands.map (fun d => (A, d))

/-- The targets of the persisted edges: every node the walk can descend
to. -/
def targetsOf (E : EdgeList) : Finset Nat :=
  (E.map (fun p => p.2)).toFinset

/-! ### What an error, resp. a success, of the walk means -/

/-- The current path is a chain of persisted edges. -/
def chain (E : EdgeList) : List Nat → Prop
  | [] => True
  | [_] => True
  | a :: b :: rest => (a, b) ∈ E ∧ chain E (b :: rest)

/-! ## Version numbering (C3) -/

/-- The snapshot versions recorded for a function, in creation order. -/
def funcDeployVersions (st : Store) (func_id : Nat) : List Nat :=
  (st.func_deploys.filter (fun d => d.func_id == func_id)).map
    (fun d => d.version)

/-- The snapshot versions recorded for a tool, in creation order. -/
def toolDeployVersions (st : Store) (tool_id : Nat) : List Nat :=
  (st.tool_deploys.filter (fun d => d.tool_id == tool_id)).map
    (fun d => d.version)

/-- Mirror of `N` successive deploys of one function. -/
def deployFuncN (st : Store) (func_id : Nat) (description user : Option String)
    (now : Int) : Nat → Store
  | 0 => st
  | n + 1 =>
    match deploy_func (deployFuncN st func_id description user now n) func_id
        description user now with
    | .ok (st2, _) => st2
    | .error _ => deployFuncN st func_id description user now n

/-- Mirror of `N` successive deploys of one tool. -/
def deployToolN (st : Store) (tool_id : Nat) (description user : Option String)
    (now : Int) : Nat → Store
  | 0 => st
  | n + 1 =>
    match deploy_tool (deployToolN st tool_id description user now n) tool_id
        description user now with
    | .ok (st2, _) => st2
    | .error _ => deployToolN st tool_id description user now n

/-- A bare function row for concrete stores. -/
def wFunc (id : Nat) (name : String) (code : List Stmt) : TbFunc :=
  ⟨id, name, Option.none, code, Option.none, 0, 0, Option.none, Option.none⟩

/-- A bare enabled tool row for concrete stores. -/
def wTool (id : Nat) (name : String) (code : List Stmt)
    (params : JsonField) (enabled : Bool) : TbTool :=
  ⟨id, name, Option.none, "basic", "", params, code, enabled, Option.none,
   0, 0, Option.none, Option.none⟩

/-- The empty store. -/
def emptyStore : Store :=
  ⟨[], [], [], [], [], [], [], [], [], 1⟩

/-- The end-to-end store of §8: function `addOne` defining `f()`, tool `T`
with code `result = f() + 1` depending on it. -/
def c1Store : Store :=
  { emptyStore with
    funcs := [wFunc 1 "addOne" [Stmt.defn "f" (Expr.intLit 1)]],
    tools := [wTool 1 "T"
      [Stmt.assign "result" (Expr.add (Expr.call0 "f") (Expr.intLit 1))]
      (JsonField.parsed []) true],
    tool_funcs := [⟨1, 1, 0, 0, Option.none, Option.none⟩] }

/-- A tool that prints one line and then faults. -/
def c6Store : Store :=
  { emptyStore with
    tools := [wTool 1 "P"
      [Stmt.print (Expr.strLit "hello"), Stmt.raiseExc "boom"]
      JsonField.absent true] }

/-- A function referenced by a tool whose id (100) matches no function
row, with one deploy snapshot and one outgoing dependency edge. -/
def c7Store : Store :=
  { emptyStore with
    funcs := [wFunc 1 "F" [], wFunc 2 "G" []],
    func_deploys := [⟨1, 1, [], Option.none, 0, 0, Option.none,
                      Option.none⟩],
    func_depends := [⟨1, 2, 0, 0, Option.none, Option.none⟩],
    tools := [wTool 100 "T" [] JsonField.absent true],
    tool_funcs := [⟨100, 1, 0, 0, Option.none, Option.none⟩] }

/-! ## The MCP tool listing (C8) -/

/-- The stored parameter text fails `json.loads`. -/
def paramsParseFails : JsonField → Bool
  | .invalid _ => true
  | _ => false

/-- The input schema the conversion produces: the parsed object, or the
empty object for falsy stored text. -/
def schemaVal : JsonField → Val
  | .parsed kvs => .dict kvs
  | _ => .dict []

/-- The descriptor of a tool whose schema did not fail to parse. -/
def mcpDescriptor (t : TbTool) : McpTool :=
  { name := t.name, description := t.description.getD "",
    inputSchema := schemaVal t.parameters }

/-- A catalog of 1001 enabled tools with parseable schemas, ids
descending. -/
def c8Store : Store :=
  { emptyStore with
    tools := (List.range 1001).map
      (fun k => wTool (1000 - k) "t" [] (JsonField.parsed []) true) }

theorem Walk.append {E : EdgeList} {a b c : Nat}
    (w1 : Walk E a b) (w2 : Walk E b c) : Walk E a c := by
  induction w1 with
  | refl => exact w2
  | step h _ ih => exact .step h (ih w2)

theorem Walk.mono {E F : EdgeList} (hEF : ∀ p, p ∈ E → p ∈ F) {a b : Nat}
    (w : Walk E a b) : Walk F a b := by
  induction w with
  | refl => exact .refl _
  | step h _ ih => exact .step (hEF _ h) ih

theorem Walk.cases_eq {E : EdgeList} {a c : Nat} (w : Walk E a c) :
    a = c ∨ StepWalk E a c := by
  cases w with
  | refl => exact Or.inl rfl
  | step h w => exact Or.inr ⟨_, h, w⟩

theorem walk_rank_le {E : EdgeList} (rank : Nat → Nat)
    (h : ∀ p ∈ E, rank p.2 < rank p.1) {a b : Nat} (w : Walk E a b) :
    rank b ≤ rank a := by
  induction w with
  | refl => exact le_refl _
  | step he _ ih => exact ih.trans (le_of_lt (h _ he))

/-- A ranking that strictly drops along every edge certifies acyclicity. -/
theorem acyclic_of_rank (E : EdgeList) (rank : Nat → Nat)
    (h : ∀ p ∈ E, rank p.2 < rank p.1) : Acyclic E := by
  rintro ⟨p, hp, w⟩
  exact absurd (walk_rank_le rank h w) (not_le.mpr (h p hp))

theorem mem_depsOf {E : EdgeList} {d x : Nat} :
    x ∈ depsOf E d ↔ (d, x) ∈ E := by
  constructor
  · intro hx
    simp only [depsOf, List.mem_map, List.mem_filter, beq_iff_eq] at hx
    obtain ⟨e, ⟨he, h1⟩, h2⟩ := hx
    have : e = (d, x) := by
      cases e
      simp_all
    exact this ▸ he
  · intro hdx
    simp only [depsOf, List.mem_map, List.mem_filter, beq_iff_eq]
    exact ⟨(d, x), ⟨hdx, rfl⟩, rfl⟩

theorem depsOf_subset_targets {E : EdgeList} {d x : Nat}
    (hx : x ∈ depsOf E d) : x ∈ targetsOf E := by
  have := mem_depsOf.mp hx
  simp only [targetsOf, List.mem_toFinset, List.mem_map]
  exact ⟨(d, x), this, rfl⟩

theorem targetsOf_card_le (E : EdgeList) : (targetsOf E).card ≤ E.length := by
  calc (targetsOf E).card ≤ (E.map (fun p => p.2)).length :=
        List.toFinset_card_le _
    _ = E.length := List.length_map _ _

/-! ### The fuel `E.length + 2` always suffices -/

theorem checkList_isSome_of_subset (E : EdgeList) (A : Nat) :
    ∀ fuel deps path, (∀ x ∈ deps, x ∈ targetsOf E) →
      (targetsOf E \ path.toFinset).card < fuel →
      (checkList E A fuel deps path).isSome := by
  intro fuel
  induction fuel with
  | zero =>
    intro deps path _ hcard
    exact absurd hcard (Nat.not_lt_zero _)
  | succ f ihf =>
    intro deps
    induction deps with
    | nil =>
      intro path _ _
      simp [checkList]
    | cons d rest ihd =>
      intro path hsub hcard
      rw [checkList]
      by_cases hd : d ∈ path
      · simp [hd]
      · simp only [hd, if_false]
        by_cases hne : (depsOf E d).isEmpty
        · simp only [hne, if_true]
          exact ihd path (fun x hx => hsub x (List.mem_cons_of_mem _ hx)) hcard
        · simp only [hne, if_false]
          by_cases hA : A ∈ depsOf E d
          · simp [hA]
          · simp only [hA, if_false]
            have hdT : d ∈ targetsOf E := hsub d (List.mem_cons_self _ _)
            have hdS : d ∈ targetsOf E \ path.toFinset := by
              refine Finset.mem_sdiff.mpr ⟨hdT, ?_⟩
              simpa using hd
            have hss : targetsOf E \ (path ++ [d]).toFinset ⊂
                targetsOf E \ path.toFinset := by
              constructor
              · intro x hx
                rcases Finset.mem_sdiff.mp hx with ⟨hx1, hx2⟩
                refine Finset.mem_sdiff.mpr ⟨hx1, fun hxp => hx2 ?_⟩
                simp only [List.toFinset_append, Finset.mem_union]
                exact Or.inl hxp
              · intro hcontra
                have := hcontra hdS
                rcases Finset.mem_sdiff.mp this with ⟨_, h2⟩
                refine h2 ?_
                simp
            have hcard2 : (targetsOf E \ (path ++ [d]).toFinset).card < f := by
              have := Finset.card_lt_card hss
              omega
            have hinner := ihf (depsOf E d) (path ++ [d])
              (fun x hx => depsOf_subset_targets hx) hcard2
            cases hmatch : checkList E A f (depsOf E d) (path ++ [d]) with
            | none => rw [hmatch] at hinner; exact absurd hinner (by simp)
            | some r =>
              cases r with
              | error e => simp [hmatch]
              | ok u =>
                simp only [hmatch]
                exact ihd path (fun x hx => hsub x (List.mem_cons_of_mem _ hx))
                  hcard

theorem checkList_top_isSome (E : EdgeList) (A : Nat) :
    ∀ deps, (checkList E A (E.length + 2) deps []).isSome := by
  intro deps
  induction deps with
  | nil => simp [checkList]
  | cons d rest ih =>
    show (checkList E A (E.length + 1 + 1) (d :: rest) []).isSome
    rw [checkList]
    simp only [List.not_mem_nil, if_false]
    by_cases hne : (depsOf E d).isEmpty
    · simp only [hne, if_true]
      exact ih
    · simp only [hne, if_false]
      by_cases hA : A ∈ depsOf E d
      · simp [hA]
      · simp only [hA, if_false]
        have hcard : (targetsOf E \ ([] ++ [d] : List Nat).toFinset).card <
            E.length + 1 := by
          have h1 : (targetsOf E \ ([] ++ [d] : List Nat).toFinset).card ≤
              (targetsOf E).card := Finset.card_le_card (Finset.sdiff_subset)
          have h2 := targetsOf_card_le E
          omega
        have hinner := checkList_isSome_of_subset E A (E.length + 1)
          (depsOf E d) ([] ++ [d])
          (fun x hx => depsOf_subset_targets hx) hcard
        cases hmatch : checkList E A (E.length + 1) (depsOf E d) ([] ++ [d]) with
        | none => rw [hmatch] at hinner; exact absurd hinner (by simp)
        | some r =>
          cases r with
          | error e => simp [hmatch]
          | ok u =>
            simp only [hmatch]
            exact ih

theorem checkCircFuel_isSome (E : EdgeList) (A : Nat) (deps : List Nat) :
    (checkCircFuel E A (suffFuel E) deps []).isSome := by
  rw [checkCircFuel]
  by_cases hA : A ∈ deps
  · simp [hA]
  · simp only [hA, if_false]
    exact checkList_top_isSome E A deps

theorem chain_walk_last (E : EdgeList) :
    ∀ (path : List Nat) (x p : Nat), chain E path → x ∈ path →
      path.getLast? = some p → Walk E x p := by
  intro path
  induction path with
  | nil => intro x p _ hx _; exact absurd hx (List.not_mem_nil x)
  | cons a rest ih =>
    intro x p hchain hx hlast
    cases rest with
    | nil =>
      have hxa : x = a := by simpa using hx
      have hpa : p = a := by simp at hlast; omega
      subst hxa; subst hpa
      exact .refl _
    | cons b rest2 =>
      obtain ⟨hab, hchain2⟩ := hchain
      have hlast2 : (b :: rest2).getLast? = some p := by
        rwa [List.getLast?_cons_cons] at hlast
      rcases List.mem_cons.mp hx with hxa | hxtail
      · subst hxa
        exact .step hab (ih b p hchain2 (List.mem_cons_self _ _) hlast2)
      · exact ih x p hchain2 hxtail hlast2

theorem chain_append_one (E : EdgeList) :
    ∀ (path : List Nat) (d : Nat), chain E path →
      (∀ p, path.getLast? = some p → (p, d) ∈ E) →
      chain E (path ++ [d]) := by
  intro path
  induction path with
  | nil => intro d _ _; trivial
  | cons a rest ih =>
    intro d hchain hlast
    cases rest with
    | nil =>
      exact ⟨hlast a rfl, trivial⟩
    | cons b rest2 =>
      obtain ⟨hab, hchain2⟩ := hchain
      refine ⟨hab, ?_⟩
      exact ih d hchain2 (fun p hp => hlast p (by
        rwa [List.getLast?_cons_cons]))

theorem getLast?_append_one {α : Type} (l : List α) (a : α) :
    (l ++ [a]).getLast? = some a := by
  induction l with
  | nil => rfl
  | cons b rest ih =>
    rw [List.cons_append]
    cases hr : rest ++ [a] with
    | nil => exact absurd hr (by simp)
    | cons c tail =>
      rw [List.getLast?_cons_cons, ← hr]
      exact ih

/-- Soundness of the raise: under an acyclic persisted graph and the walk
invariants, an error means the originating id is persisted-reachable from
one of the original candidates. -/
theorem checkList_error_reaches (E : EdgeList) (A : Nat)
    (hacyc : Acyclic E) (cands0 : List Nat) :
    ∀ fuel deps path e,
      (∀ x ∈ deps, ∃ d0 ∈ cands0, Walk E d0 x) →
      chain E path →
      (∀ p, path.getLast? = some p → ∀ x ∈ deps, (p, x) ∈ E) →
      checkList E A fuel deps path = some (.error e) →
      ∃ d0 ∈ cands0, Walk E d0 A := by
  intro fuel
  have hpathmem : ∀ (path deps : List Nat) (d : Nat), d ∈ path → d ∈ deps →
      chain E path →
      (∀ p, path.getLast? = some p → ∀ x ∈ deps, (p, x) ∈ E) → False := by
    intro path deps d hdpath hddeps hchain hlast
    have hne : path ≠ [] := by
      intro h
      rw [h] at hdpath
      exact List.not_mem_nil d hdpath
    obtain ⟨p, hp⟩ := Option.isSome_iff_exists.mp
      (List.getLast?_isSome.mpr hne)
    have hedge : (p, d) ∈ E := hlast p hp d hddeps
    have hwalk : Walk E d p := chain_walk_last E path d p hchain hdpath hp
    exact hacyc ⟨(p, d), hedge, hwalk⟩
  induction fuel with
  | zero =>
    intro deps
    induction deps with
    | nil =>
      intro path e _ _ _ hrun
      simp [checkList] at hrun
    | cons d rest ihd =>
      intro path e h1 h2 h3 hrun
      rw [checkList] at hrun
      by_cases hd : d ∈ path
      · exact absurd
          (hpathmem path (d :: rest) d hd (List.mem_cons_self _ _) h2 h3)
          not_false
      · simp only [hd, if_false] at hrun
        by_cases hne : (depsOf E d).isEmpty
        · simp only [hne, if_true] at hrun
          exact ihd path e
            (fun x hx => h1 x (List.mem_cons_of_mem _ hx)) h2
            (fun p hp x hx => h3 p hp x (List.mem_cons_of_mem _ hx)) hrun
        · simp only [hne, if_false] at hrun
          exact absurd hrun (by simp)
  | succ f ihf =>
    intro deps
    induction deps with
    | nil =>
      intro path e _ _ _ hrun
      simp [checkList] at hrun
    | cons d rest ihd =>
      intro path e h1 h2 h3 hrun
      rw [checkList] at hrun
      by_cases hd : d ∈ path
      · exact absurd
          (hpathmem path (d :: rest) d hd (List.mem_cons_self _ _) h2 h3)
          not_false
      · simp only [hd, if_false] at hrun
        by_cases hne : (depsOf E d).isEmpty
        · simp only [hne, if_true] at hrun
          exact ihd path e
            (fun x hx => h1 x (List.mem_cons_of_mem _ hx)) h2
            (fun p hp x hx => h3 p hp x (List.mem_cons_of_mem _ hx)) hrun
        · simp only [hne, if_false] at hrun
          obtain ⟨d0, hd0, hw0⟩ := h1 d (List.mem_cons_self _ _)
          by_cases hA : A ∈ depsOf E d
          · exact ⟨d0, hd0, hw0.append (.step (mem_depsOf.mp hA) (.refl _))⟩
          · simp only [hA, if_false] at hrun
            cases hmatch : checkList E A f (depsOf E d) (path ++ [d]) with
            | none => rw [hmatch] at hrun; exact absurd hrun (by simp)
            | some r =>
              cases r with
              | error e2 =>
                refine ihf (depsOf E d) (path ++ [d]) e2 ?_ ?_ ?_ hmatch
                · intro x hx
                  exact ⟨d0, hd0,
                    hw0.append (.step (mem_depsOf.mp hx) (.refl _))⟩
                · exact chain_append_one E path d h2
                    (fun p hp => h3 p hp d (List.mem_cons_self _ _))
                · intro p hp x hx
                  have hpd : p = d := by
                    rw [getLast?_append_one] at hp
                    exact (Option.some.inj hp).symm
                  subst hpd
                  exact mem_depsOf.mp hx
              | ok u =>
                rw [hmatch] at hrun
                simp only at hrun
                exact ihd path e
                  (fun x hx => h1 x (List.mem_cons_of_mem _ hx)) h2
                  (fun p hp x hx => h3 p hp x (List.mem_cons_of_mem _ hx))
                  hrun

/-- Completeness of the walk: a success means no dependency in the list
has a persisted walk of at least one step to the originating id. -/
theorem checkList_ok_no_stepwalk (E : EdgeList) (A : Nat) :
    ∀ fuel deps path, checkList E A fuel deps path = some (.ok ()) →
      ∀ x ∈ deps, ¬ StepWalk E x A := by
  intro fuel
  induction fuel with
  | zero =>
    intro deps
    induction deps with
    | nil =>
      intro path _ x hx
      exact absurd hx (List.not_mem_nil x)
    | cons d rest ihd =>
      intro path hrun x hx
      rw [checkList] at hrun
      by_cases hd : d ∈ path
      · simp [hd] at hrun
      · simp only [hd, if_false] at hrun
        by_cases hne : (depsOf E d).isEmpty
        · simp only [hne, if_true] at hrun
          rcases List.mem_cons.mp hx with hxd | hxrest
          · subst hxd
            rintro ⟨z, hz, _⟩
            have hzmem : z ∈ depsOf E x := mem_depsOf.mpr hz
            rw [List.isEmpty_iff.mp hne] at hzmem
            exact List.not_mem_nil z hzmem
          · exact ihd path hrun x hxrest
        · simp only [hne, if_false] at hrun
          exact absurd hrun (by simp)
  | succ f ihf =>
    intro deps
    induction deps with
    | nil =>
      intro path _ x hx
      exact absurd hx (List.not_mem_nil x)
    | cons d rest ihd =>
      intro path hrun x hx
      rw [checkList] at hrun
      by_cases hd : d ∈ path
      · simp [hd] at hrun
      · simp only [hd, if_false] at hrun
        by_cases hne : (depsOf E d).isEmpty
        · simp only [hne, if_true] at hrun
          rcases List.mem_cons.mp hx with hxd | hxrest
          · subst hxd
            rintro ⟨z, hz, _⟩
            have hzmem : z ∈ depsOf E x := mem_depsOf.mpr hz
            rw [List.isEmpty_iff.mp hne] at hzmem
            exact List.not_mem_nil z hzmem
          · exact ihd path hrun x hxrest
        · simp only [hne, if_false] at hrun
          by_cases hA : A ∈ depsOf E d
          · simp [hA] at hrun
          · simp only [hA, if_false] at hrun
            cases hmatch : checkList E A f (depsOf E d) (path ++ [d]) with
            | none => rw [hmatch] at hrun; simp at hrun
            | some r =>
              cases r with
              | error e2 => rw [hmatch] at hrun; simp at hrun
              | ok u =>
                rw [hmatch] at hrun
                simp only at hrun
                rcases List.mem_cons.mp hx with hxd | hxrest
                · subst hxd
                  rintro ⟨z, hz, wz⟩
                  have hzmem : z ∈ depsOf E x := mem_depsOf.mpr hz
                  rcases wz.cases_eq with hzA | hstep
                  · subst hzA
                    exact hA hzmem
                  · exact ihf (depsOf E x) (path ++ [x]) hmatch z hzmem hstep
                · exact ihd path hrun x hxrest

theorem mem_newEdges {A : Nat} {cands : List Nat} {p : Nat × Nat} :
    p ∈ newEdges A cands ↔ ∃ d ∈ cands, p = (A, d) := by
  simp only [newEdges, List.mem_map]
  constructor
  · rintro ⟨d, hd, rfl⟩; exact ⟨d, hd, rfl⟩
  · rintro ⟨d, hd, rfl⟩; exact ⟨d, hd, rfl⟩

theorem walkG_endA {E : EdgeList} {A : Nat} {cands : List Nat} :
    ∀ {x c : Nat}, Walk (newEdges A cands ++ E) x c → c = A →
      x = A ∨ Walk E x A := by
  intro x c w
  induction w with
  | refl => exact fun h => Or.inl h
  | step hG w ih =>
    intro hc
    rcases List.mem_append.mp hG with hnew | hE
    · obtain ⟨d, _, heq⟩ := mem_newEdges.mp hnew
      exact Or.inl (congrArg Prod.fst heq)
    · rcases ih hc with hzA | hwalk
      · right
        subst hzA
        exact .step hE (.refl _)
      · right
        exact .step hE hwalk

theorem walk_split {E : EdgeList} {A : Nat} {cands : List Nat} :
    ∀ {x y : Nat}, Walk (newEdges A cands ++ E) x y →
      Walk E x y ∨
        (Walk E x A ∧ ∃ d ∈ cands, Walk (newEdges A cands ++ E) d y) := by
  intro x y w
  induction w with
  | refl => exact Or.inl (.refl _)
  | step hG w ih =>
    rcases List.mem_append.mp hG with hnew | hE
    · obtain ⟨d, hd, heq⟩ := mem_newEdges.mp hnew
      right
      have h1 : _ = A := congrArg Prod.fst heq
      have h2 := congrArg Prod.snd heq
      simp only at h1 h2
      subst h1
      exact ⟨.refl _, d, hd, h2 ▸ w⟩
    · rcases ih with hwalk | ⟨hwA, hrest⟩
      · exact Or.inl (.step hE hwalk)
      · exact Or.inr ⟨.step hE hwA, hrest⟩

/-- Under an acyclic persisted graph, adding the proposed edges creates a
cycle exactly when the originating id is persisted-reachable (in zero or
more steps) from one of the candidates. -/
theorem cyclic_newEdges_iff {E : EdgeList} {A : Nat} {cands : List Nat}
    (hacyc : Acyclic E) :
    Cyclic (newEdges A cands ++ E) ↔ ∃ d ∈ cands, Walk E d A := by
  constructor
  · rintro ⟨p, hp, w⟩
    rcases List.mem_append.mp hp with hnew | hE
    · obtain ⟨d, hd, heq⟩ := mem_newEdges.mp hnew
      have h1 : p.1 = A := by rw [heq]
      have h2 : p.2 = d := by rw [heq]
      rw [h1, h2] at w
      rcases walkG_endA w rfl with hdA | hwalk
      · exact ⟨d, hd, hdA ▸ .refl _⟩
      · exact ⟨d, hd, hwalk⟩
    · rcases walk_split w with hwalk | ⟨hw2A, ⟨d, hd, wG⟩⟩
      · exact absurd ⟨p, hE, hwalk⟩ hacyc
      · rcases walk_split wG with hwd | ⟨hwdA, _⟩
        · have hp1A : Walk E p.1 A := by
            have hpe : (p.1, p.2) ∈ E := by simpa using hE
            exact .step hpe hw2A
          exact ⟨d, hd, hwd.append hp1A⟩
        · exact ⟨d, hd, hwdA⟩
  · rintro ⟨d, hd, w⟩
    refine ⟨(A, d), List.mem_append.mpr (Or.inl (mem_newEdges.mpr ⟨d, hd, rfl⟩)),
      ?_⟩
    exact w.mono (fun q hq => List.mem_append.mpr (Or.inr hq))

/-- Every error the walk raises carries the originating `func_id`. -/
theorem checkList_error_funcId (E : EdgeList) (A : Nat) :
    ∀ fuel deps path e, checkList E A fuel deps path = some (.error e) →
      e.funcId = A := by
  intro fuel
  induction fuel with
  | zero =>
    intro deps
    induction deps with
    | nil =>
      intro path e hrun
      simp [checkList] at hrun
    | cons d rest ihd =>
      intro path e hrun
      rw [checkList] at hrun
      by_cases hd : d ∈ path
      · simp only [hd, if_true] at hrun
        have : CircErr.mk A (path ++ [d]) = e := by
          injection (Option.some.inj hrun)
        rw [← this]
      · simp only [hd, if_false] at hrun
        by_cases hne : (depsOf E d).isEmpty
        · simp only [hne, if_true] at hrun
          exact ihd path e hrun
        · simp only [hne, if_false] at hrun
          exact absurd hrun (by simp)
  | succ f ihf =>
    intro deps
    induction deps with
    | nil =>
      intro path e hrun
      simp [checkList] at hrun
    | cons d rest ihd =>
      intro path e hrun
      rw [checkList] at hrun
      by_cases hd : d ∈ path
      · simp only [hd, if_true] at hrun
        have : CircErr.mk A (path ++ [d]) = e := by
          injection (Option.some.inj hrun)
        rw [← this]
      · simp only [hd, if_false] at hrun
        by_cases hne : (depsOf E d).isEmpty
        · simp only [hne, if_true] at hrun
          exact ihd path e hrun
        · simp only [hne, if_false] at hrun
          by_cases hA : A ∈ depsOf E d
          · simp only [hA, if_true] at hrun
            have : CircErr.mk A (path ++ [d]) = e := by
              injection (Option.some.inj hrun)
            rw [← this]
          · simp only [hA, if_false] at hrun
            cases hmatch : checkList E A f (depsOf E d) (path ++ [d]) with
            | none => rw [hmatch] at hrun; simp at hrun
            | some r =>
              cases r with
              | error e2 =>
                rw [hmatch] at hrun
                simp only at hrun
                have : e2 = e := by injection (Option.some.inj hrun)
                exact this ▸ ihf (depsOf E d) (path ++ [d]) e2 hmatch
              | ok u =>
                rw [hmatch] at hrun
                simp only at hrun
                exact ihd path e hrun

/-- C2: against an acyclic committed graph, `check_circular_dependency`
succeeds exactly when the committed graph together with the proposed
edges `functionId → d` is still acyclic; every raised
`CircularDependencyError` carries the originating id, so its reported
path (`dependency_path + [func_id]`) ends back at the originating node;
an empty candidate list is trivially valid; and a candidate equal to
`functionId` is rejected immediately with the current (empty) path. -/
theorem check_circular_dependency_iff_acyclic
    (E : EdgeList) (A : Nat) (cands : List Nat) (hacyc : Acyclic E) :
    (check_circular_dependency E A cands = .ok () ↔
      Acyclic (newEdges A cands ++ E))
    ∧ (∀ e, check_circular_dependency E A cands = .error e →
        e.funcId = A ∧ (reportedPath e).getLast? = some A)
    ∧ check_circular_dependency E A [] = .ok ()
    ∧ (A ∈ cands → check_circular_dependency E A cands = .error ⟨A, []⟩) := by
  obtain ⟨r, hr⟩ := Option.isSome_iff_exists.mp (checkCircFuel_isSome E A cands)
  have hcheck : check_circular_dependency E A cands = r := by
    rw [check_circular_dependency, hr]
  refine ⟨⟨?_, ?_⟩, ?_, ?_, ?_⟩
  · intro hok
    rw [hcheck] at hok
    subst hok
    rw [checkCircFuel] at hr
    by_cases hA : A ∈ cands
    · simp [hA] at hr
    · simp only [hA, if_false] at hr
      have hnostep := checkList_ok_no_stepwalk E A (suffFuel E) cands [] hr
      intro hcyc
      obtain ⟨d, hd, w⟩ := (cyclic_newEdges_iff hacyc).mp hcyc
      rcases w.cases_eq with hdA | hstep
      · exact hA (hdA ▸ hd)
      · exact hnostep d hd hstep
  · intro hnew
    rw [hcheck]
    have hA : A ∉ cands := by
      intro hA
      exact hnew ((cyclic_newEdges_iff hacyc).mpr ⟨A, hA, .refl _⟩)
    rw [checkCircFuel] at hr
    simp only [hA, if_false] at hr
    cases r with
    | error e =>
      obtain ⟨d, hd, w⟩ := checkList_error_reaches E A hacyc cands
        (suffFuel E) cands [] e (fun x hx => ⟨x, hx, .refl _⟩) trivial
        (fun p hp => by simp at hp) hr
      exact absurd ((cyclic_newEdges_iff hacyc).mpr ⟨d, hd, w⟩) hnew
    | ok u => rfl
  · intro e he
    rw [hcheck] at he
    subst he
    rw [checkCircFuel] at hr
    have hfid : e.funcId = A := by
      by_cases hA : A ∈ cands
      · simp only [hA, if_true] at hr
        have : CircErr.mk A [] = e := by injection (Option.some.inj hr)
        rw [← this]
      · simp only [hA, if_false] at hr
        exact checkList_error_funcId E A (suffFuel E) cands [] e hr
    refine ⟨hfid, ?_⟩
    rw [reportedPath, getLast?_append_one, hfid]
  · simp [check_circular_dependency, checkCircFuel, checkList]
  · intro hA
    simp [check_circular_dependency, checkCircFuel, hA]

/-- Witness for C2: a diamond — functions 2 and 3 both depending on the
committed function 4 — is a legal dependency list for function 1. -/
theorem check_circular_dependency_iff_acyclic_witness :
    check_circular_dependency [(2, 4), (3, 4)] 1 [2, 3] = .ok () := by
  have hrank : ∀ n : Nat, Nat :=
    fun n => if n = 1 then 2 else if n = 4 then 0 else 1
  have hacyc : Acyclic [(2, 4), (3, 4)] :=
    acyclic_of_rank _ (fun n => if n = 1 then 2 else if n = 4 then 0 else 1)
      (by decide)
  have hnew : Acyclic (newEdges 1 [2, 3] ++ [(2, 4), (3, 4)]) :=
    acyclic_of_rank _ (fun n => if n = 1 then 2 else if n = 4 then 0 else 1)
      (by decide)
  exact ((check_circular_dependency_iff_acyclic [(2, 4), (3, 4)] 1 [2, 3]
    hacyc).1).mpr hnew

theorem find?_map_ite {α : Type} (p : α → Bool) (f2 : α) (l : List α)
    (a : α) (h : l.find? p = some a) (h2 : p f2 = true) :
    (l.map (fun g => if p g then f2 else g)).find? p = some f2 := by
  induction l with
  | nil => simp at h
  | cons b rest ih =>
    by_cases hb : p b
    · simp only [List.map_cons, if_pos hb]
      exact List.find?_cons_of_pos _ h2
    · rw [List.find?_cons_of_neg _ hb] at h
      simp only [List.map_cons, if_neg hb]
      rw [List.find?_cons_of_neg _ hb]
      exact ih h

theorem nextVersion_getD (cv : Option Nat) :
    nextVersion cv = cv.getD 0 + 1 := by
  cases cv with
  | none => rfl
  | some v =>
    by_cases hv : v = 0
    · subst hv; rfl
    · simp [nextVersion, hv]

/-- One function deploy from a found row, fully described. -/
theorem deploy_func_step (st : Store) (func_id : Nat)
    (description user : Option String) (now : Int) (f : TbFunc)
    (hf : get_func_by_id st func_id = some f) :
    ∃ st2 dep, deploy_func st func_id description user now = .ok (st2, dep)
      ∧ dep.version = f.current_version.getD 0 + 1
      ∧ dep.code = f.code
      ∧ dep.func_id = f.id
      ∧ get_func_by_id st2 func_id =
          some { f with current_version := some dep.version }
      ∧ st2.func_deploys = st.func_deploys ++ [dep] := by
  have hf' : st.funcs.find? (fun g => g.id == func_id) = some f := hf
  have hfp := List.find?_some hf'
  set dep : TbFuncDeploy :=
    ⟨f.id, nextVersion f.current_version, f.code, description,
     now, now, user, user⟩ with hdep
  set f2 : TbFunc := { f with current_version := some dep.version } with hf2
  have heq : deploy_func st func_id description user now =
      .ok ({ st with funcs := replaceFunc st.funcs func_id f2,
                     func_deploys := st.func_deploys ++ [dep] }, dep) := by
    rw [deploy_func, hf]
  refine ⟨_, _, heq, nextVersion_getD f.current_version, rfl, rfl, ?_, rfl⟩
  exact find?_map_ite (fun g => g.id == func_id) f2 st.funcs f hf' hfp

/-- One tool deploy from a found row, fully described. -/
theorem deploy_tool_step (st : Store) (tool_id : Nat)
    (description user : Option String) (now : Int) (t : TbTool)
    (ht : get_tool_by_id st tool_id = some t) :
    ∃ st2 dep, deploy_tool st tool_id description user now = .ok (st2, dep)
      ∧ dep.version = t.current_version.getD 0 + 1
      ∧ dep.code = t.code
      ∧ dep.parameters = t.parameters
      ∧ dep.setting = t.setting
      ∧ dep.tool_id = t.id
      ∧ get_tool_by_id st2 tool_id =
          some { t with current_version := some dep.version }
      ∧ st2.tool_deploys = st.tool_deploys ++ [dep] := by
  have ht' : st.tools.find? (fun g => g.id == tool_id) = some t := ht
  have htp := List.find?_some ht'
  set dep : TbToolDeploy :=
    ⟨t.id, nextVersion t.current_version, t.type, t.setting, t.parameters,
     t.code, description, now, now, user, user⟩ with hdep
  set t2 : TbTool := { t with current_version := some dep.version } with ht2
  have heq : deploy_tool st tool_id description user now =
      .ok ({ st with tools := replaceTool st.tools tool_id t2,
                     tool_deploys := st.tool_deploys ++ [dep] }, dep) := by
    rw [deploy_tool, ht]
  refine ⟨_, _, heq, nextVersion_getD t.current_version, rfl, rfl, rfl, rfl,
    ?_, rfl⟩
  exact find?_map_ite (fun g => g.id == tool_id) t2 st.tools t ht' htp

/-- Iterating function deploys from a fresh row produces the versions
`1, 2, …, N` in order and leaves `current_version = N`. -/
theorem deployFuncN_versions (st : Store) (func_id : Nat)
    (description user : Option String) (now : Int) (f : TbFunc)
    (hf : get_func_by_id st func_id = some f)
    (hcv : f.current_version = Option.none) :
    ∀ N, ∃ fN,
      get_func_by_id (deployFuncN st func_id description user now N) func_id
          = some fN
      ∧ fN.current_version = (if N = 0 then Option.none else some N)
      ∧ funcDeployVersions (deployFuncN st func_id description user now N)
            func_id
          = funcDeployVersions st func_id
              ++ (List.range N).map (fun k => k + 1) := by
  intro N
  induction N with
  | zero => exact ⟨f, hf, by simp [hcv], by simp [deployFuncN]⟩
  | succ n ih =>
    obtain ⟨fN, hfN, hcvN, hvers⟩ := ih
    obtain ⟨st2, dep, heq, hver, _hcode, hdid, hget, hdeps⟩ :=
      deploy_func_step _ func_id description user now fN hfN
    have hverN : dep.version = n + 1 := by
      rw [hver]
      cases n with
      | zero =>
        simp only [if_pos rfl] at hcvN
        simp [hcvN]
      | succ m =>
        simp only [Nat.succ_ne_zero, if_false] at hcvN
        simp [hcvN]
    have hstep : deployFuncN st func_id description user now (n + 1) = st2 := by
      rw [deployFuncN, heq]
    have hfN' : (deployFuncN st func_id description user now n).funcs.find?
        (fun g => g.id == func_id) = some fN := hfN
    have hfNid0 := List.find?_some hfN'
    have hfNid : (fN.id == func_id) = true := hfNid0
    have hdepid : (dep.func_id == func_id) = true := by rw [hdid]; exact hfNid
    refine ⟨{ fN with current_version := some dep.version }, ?_, ?_, ?_⟩
    · rw [hstep]
      exact hget
    · simp [hverN]
    · rw [hstep]
      show funcDeployVersions st2 func_id = _
      rw [funcDeployVersions, hdeps, List.filter_append, List.map_append,
        List.range_succ, List.map_append]
      have hsingle : List.filter (fun d => d.func_id == func_id) [dep] = [dep] := by
        simp [List.filter, hdepid]
      rw [hsingle]
      rw [show (List.map (fun d => d.version) [dep]) = [dep.version] from rfl]
      rw [hverN]
      rw [← funcDeployVersions, hvers]
      simp

/-- Iterating tool deploys from a fresh row produces the versions
`1, 2, …, N` in order and leaves `current_version = N`. -/
theorem deployToolN_versions (st : Store) (tool_id : Nat)
    (description user : Option String) (now : Int) (t : TbTool)
    (ht : get_tool_by_id st tool_id = some t)
    (hcv : t.current_version = Option.none) :
    ∀ N, ∃ tN,
      get_tool_by_id (deployToolN st tool_id description user now N) tool_id
          = some tN
      ∧ tN.current_version = (if N = 0 then Option.none else some N)
      ∧ toolDeployVersions (deployToolN st tool_id description user now N)
            tool_id
          = toolDeployVersions st tool_id
              ++ (List.range N).map (fun k => k + 1) := by
  intro N
  induction N with
  | zero => exact ⟨t, ht, by simp [hcv], by simp [deployToolN]⟩
  | succ n ih =>
    obtain ⟨tN, htN, hcvN, hvers⟩ := ih
    obtain ⟨st2, dep, heq, hver, _hcode, _hparams, _hsetting, hdid, hget,
      hdeps⟩ := deploy_tool_step _ tool_id description user now tN htN
    have hverN : dep.version = n + 1 := by
      rw [hver]
      cases n with
      | zero =>
        simp only [if_pos rfl] at hcvN
        simp [hcvN]
      | succ m =>
        simp only [Nat.succ_ne_zero, if_false] at hcvN
        simp [hcvN]
    have hstep : deployToolN st tool_id description user now (n + 1) = st2 := by
      rw [deployToolN, heq]
    have htN' : (deployToolN st tool_id description user now n).tools.find?
        (fun g => g.id == tool_id) = some tN := htN
    have htNid0 := List.find?_some htN'
    have htNid : (tN.id == tool_id) = true := htNid0
    have hdepid : (dep.tool_id == tool_id) = true := by rw [hdid]; exact htNid
    refine ⟨{ tN with current_version := some dep.version }, ?_, ?_, ?_⟩
    · rw [hstep]
      exact hget
    · simp [hverN]
    · rw [hstep]
      show toolDeployVersions st2 tool_id = _
      rw [toolDeployVersions, hdeps, List.filter_append, List.map_append,
        List.range_succ, List.map_append]
      have hsingle : List.filter (fun d => d.tool_id == tool_id) [dep] = [dep] := by
        simp [List.filter, hdepid]
      rw [hsingle]
      rw [show (List.map (fun d => d.version) [dep]) = [dep.version] from rfl]
      rw [hverN]
      rw [← toolDeployVersions, hvers]
      simp

/-- C3: deploying a found entity reads its current live content into an
immutable snapshot versioned `(current_version ?? 0) + 1`, advances the
entity's `current_version` to that value and touches nothing else of the
snapshot list; hence iterating deploys from a fresh entity records
versions `1, …, N` with no gaps and leaves `current_version = N` — for
functions and for tools alike. -/
theorem deploy_writes_next_version_and_counts :
    (∀ st func_id description user now f,
      get_func_by_id st func_id = some f →
      ∃ st2 dep,
        deploy_func st func_id description user now = .ok (st2, dep)
        ∧ dep.version = f.current_version.getD 0 + 1
        ∧ dep.code = f.code
        ∧ get_func_by_id st2 func_id =
            some { f with current_version := some dep.version }
        ∧ st2.func_deploys = st.func_deploys ++ [dep])
    ∧ (∀ st tool_id description user now t,
      get_tool_by_id st tool_id = some t →
      ∃ st2 dep,
        deploy_tool st tool_id description user now = .ok (st2, dep)
        ∧ dep.version = t.current_version.getD 0 + 1
        ∧ dep.code = t.code
        ∧ dep.parameters = t.parameters
        ∧ dep.setting = t.setting
        ∧ get_tool_by_id st2 tool_id =
            some { t with current_version := some dep.version }
        ∧ st2.tool_deploys = st.tool_deploys ++ [dep])
    ∧ (∀ st func_id description user now f N,
      get_func_by_id st func_id = some f →
      f.current_version = Option.none →
      funcDeployVersions st func_id = [] →
      funcDeployVersions (deployFuncN st func_id description user now N)
          func_id = (List.range N).map (fun k => k + 1)
      ∧ ∃ fN,
          get_func_by_id (deployFuncN st func_id description user now N)
              func_id = some fN
          ∧ (N ≠ 0 → fN.current_version = some N))
    ∧ (∀ st tool_id description user now t N,
      get_tool_by_id st tool_id = some t →
      t.current_version = Option.none →
      toolDeployVersions st tool_id = [] →
      toolDeployVersions (deployToolN st tool_id description user now N)
          tool_id = (List.range N).map (fun k => k + 1)
      ∧ ∃ tN,
          get_tool_by_id (deployToolN st tool_id description user now N)
              tool_id = some tN
          ∧ (N ≠ 0 → tN.current_version = some N)) := by
  refine ⟨?_, ?_, ?_, ?_⟩
  · intro st func_id description user now f hf
    obtain ⟨st2, dep, heq, hver, hcode, _hdid, hget, hdeps⟩ :=
      deploy_func_step st func_id description user now f hf
    exact ⟨st2, dep, heq, hver, hcode, hget, hdeps⟩
  · intro st tool_id description user now t ht
    obtain ⟨st2, dep, heq, hver, hcode, hparams, hsetting, _hdid, hget,
      hdeps⟩ := deploy_tool_step st tool_id description user now t ht
    exact ⟨st2, dep, heq, hver, hcode, hparams, hsetting, hget, hdeps⟩
  · intro st func_id description user now f N hf hcv hvers0
    obtain ⟨fN, hget, hcvN, hvers⟩ :=
      deployFuncN_versions st func_id description user now f hf hcv N
    rw [hvers0] at hvers
    refine ⟨by simpa using hvers, fN, hget, ?_⟩
    intro hN
    rw [hcvN, if_neg hN]
  · intro st tool_id description user now t N ht hcv hvers0
    obtain ⟨tN, hget, hcvN, hvers⟩ :=
      deployToolN_versions st tool_id description user now t ht hcv N
    rw [hvers0] at hvers
    refine ⟨by simpa using hvers, tN, hget, ?_⟩
    intro hN
    rw [hcvN, if_neg hN]

/-- Witness for C3: two deploys of a fresh function record exactly the
versions `[1, 2]`. -/
theorem deploy_writes_next_version_and_counts_witness :
    funcDeployVersions
        (deployFuncN { emptyStore with funcs := [wFunc 1 "f" []] } 1
          Option.none Option.none 0 2) 1
      = [1, 2] := by
  have h := deploy_writes_next_version_and_counts.2.2.1
    { emptyStore with funcs := [wFunc 1 "f" []] } 1 Option.none Option.none
    0 (wFunc 1 "f" []) 2 rfl rfl rfl
  exact h.1.trans (by rfl)

/-- C4: rollback of a found entity fails with the version-not-found error
exactly when no snapshot row exists at the requested version; on success
the live code (and, for tools, the parameter schema) becomes exactly the
snapshot's content, only the audit fields change besides it, no snapshot
is created or removed, and every other table of the store — and the
entity's `current_version` — is left untouched. -/
theorem rollback_restores_snapshot_only :
    (∀ st func_id version user now f,
      get_func_by_id st func_id = some f →
      (st.func_deploys.find?
            (fun d => d.func_id == func_id && d.version == version)
          = Option.none →
        rollback_func st func_id version user now =
          .error (.versionNotFound func_id version))
      ∧ (∀ dep,
        st.func_deploys.find?
            (fun d => d.func_id == func_id && d.version == version)
          = some dep →
        rollback_func st func_id version user now =
          .ok ({ st with
                 funcs := replaceFunc st.funcs func_id
                            { f with code := dep.code,
                                     updated_at := now,
                                     updated_by := user } },
               { f with code := dep.code, updated_at := now,
                        updated_by := user })
        ∧ get_func_by_id
              { st with
                funcs := replaceFunc st.funcs func_id
                           { f with code := dep.code,
                                    updated_at := now,
                                    updated_by := user } } func_id
            = some { f with code := dep.code, updated_at := now,
                            updated_by := user }))
    ∧ (∀ st tool_id version user now t,
      get_tool_by_id st tool_id = some t →
      (st.tool_deploys.find?
            (fun d => d.tool_id == tool_id && d.version == version)
          = Option.none →
        rollback_tool st tool_id version user now =
          .error (.versionNotFound tool_id version))
      ∧ (∀ dep,
        st.tool_deploys.find?
            (fun d => d.tool_id == tool_id && d.version == version)
          = some dep →
        rollback_tool st tool_id version user now =
          .ok ({ st with
                 tools := replaceTool st.tools tool_id
                            { t with parameters := dep.parameters,
                                     code := dep.code,
                                     updated_at := now,
                                     updated_by := user } },
               { t with parameters := dep.parameters, code := dep.code,
                        updated_at := now, updated_by := user })
        ∧ get_tool_by_id
              { st with
                tools := replaceTool st.tools tool_id
                           { t with parameters := dep.parameters,
                                    code := dep.code,
                                    updated_at := now,
                                    updated_by := user } } tool_id
            = some { t with parameters := dep.parameters, code := dep.code,
                            updated_at := now, updated_by := user })) := by
  constructor
  · intro st func_id version user now f hf
    have hf' : st.funcs.find? (fun g => g.id == func_id) = some f := hf
    have hfp := List.find?_some hf'
    constructor
    · intro hnone
      rw [rollback_func, hf, hnone]
    · intro dep hdep
      constructor
      · rw [rollback_func, hf, hdep]
      · exact find?_map_ite (fun g => g.id == func_id)
          { f with code := dep.code, updated_at := now, updated_by := user }
          st.funcs f hf' hfp
  · intro st tool_id version user now t ht
    have ht' : st.tools.find? (fun g => g.id == tool_id) = some t := ht
    have htp := List.find?_some ht'
    constructor
    · intro hnone
      rw [rollback_tool, ht, hnone]
    · intro dep hdep
      constructor
      · rw [rollback_tool, ht, hdep]
      · exact find?_map_ite (fun g => g.id == tool_id)
          { t with parameters := dep.parameters, code := dep.code,
                   updated_at := now, updated_by := user }
          st.tools t ht' htp

/-- Witness for C4: rolling a tool back to the snapshot at version 1
restores its code and parameters and touches neither `current_version`
nor the snapshot list. -/
theorem rollback_restores_snapshot_only_witness :
    rollback_tool
        { emptyStore with
            tools := [{ wTool 1 "T" [] JsonField.absent true with
                        current_version := some 2 }],
            tool_deploys :=
              [⟨1, 1, "basic", "", JsonField.absent,
                [Stmt.assign "result" (Expr.intLit 7)], Option.none, 0, 0,
                Option.none, Option.none⟩] } 1 1 Option.none 9
      = .ok ({ emptyStore with
                 tools := [{ wTool 1 "T"
                     [Stmt.assign "result" (Expr.intLit 7)] JsonField.absent
                     true with
                     current_version := some 2, updated_at := 9 }],
                 tool_deploys :=
                   [⟨1, 1, "basic", "", JsonField.absent,
                     [Stmt.assign "result" (Expr.intLit 7)], Option.none, 0,
                     0, Option.none, Option.none⟩] },
             { wTool 1 "T" [Stmt.assign "result" (Expr.intLit 7)]
                 JsonField.absent true with
                 current_version := some 2, updated_at := 9 }) := by
  have h :=
    (rollback_restores_snapshot_only.2
       { emptyStore with
         tools := [{ wTool 1 "T" [] JsonField.absent true with
                     current_version := some 2 }],
         tool_deploys :=
           [(⟨1, 1, "basic", "", JsonField.absent,
              [Stmt.assign "result" (Expr.intLit 7)], Option.none, 0, 0,
              Option.none, Option.none⟩ : TbToolDeploy)] }
       1 1 Option.none 9
       ({ wTool 1 "T" [] JsonField.absent true with
          current_version := some 2 })
       rfl).2
      (⟨1, 1, "basic", "", JsonField.absent,
        [Stmt.assign "result" (Expr.intLit 7)], Option.none, 0, 0,
        Option.none, Option.none⟩ : TbToolDeploy)
      rfl
  exact h.1.trans (by rfl)

/-- C5: every `execute_tool` call — success or raise — appends exactly one
log row, whose `is_success` matches the outcome and whose `duration_ms`
is `response_time - request_time`, non-negative under the monotone clock;
and a failing log write leaves the primary outcome untouched and the log
table unchanged. -/
theorem execute_always_logs_once (fuel : Nat) (st : Store) (tool_id : Nat)
    (parameters : Val) (call_type : String) (t_req t_resp : Int)
    (hmono : t_req ≤ t_resp) :
    ∃ row : TbToolLog,
      (execute_tool fuel st tool_id parameters call_type t_req t_resp
          true).2.tool_logs = st.tool_logs ++ [row]
      ∧ (row.is_success = true ↔
          ∃ r, (execute_tool fuel st tool_id parameters call_type t_req
              t_resp true).1 = .ok r)
      ∧ row.duration_ms = some (t_resp - t_req)
      ∧ (0 : Int) ≤ t_resp - t_req
      ∧ (execute_tool fuel st tool_id parameters call_type t_req t_resp
          false).1 =
        (execute_tool fuel st tool_id parameters call_type t_req t_resp
          true).1
      ∧ (execute_tool fuel st tool_id parameters call_type t_req t_resp
          false).2.tool_logs = st.tool_logs := by
  cases htool : get_tool_by_id st tool_id with
  | none =>
    refine ⟨⟨"tool_" ++ toString tool_id, some tool_id, call_type, t_req,
        some t_resp, some (t_resp - t_req), false,
        some (execExcStr (ExecExc.notFound tool_id)),
        if pyTruthy parameters then some parameters else Option.none,
        Option.none, t_resp⟩, ?_, ?_, rfl, by omega, ?_, ?_⟩
    · simp [execute_tool, htool, recordToolLog, create_log]
    · simp [execute_tool, htool]
    · simp [execute_tool, htool]
    · simp [execute_tool, htool, recordToolLog]
  | some tool =>
    cases hrun : runProg fuel (combinedCode st tool)
        (baseEnv parameters (mergedConfig st tool_id)) [] with
    | mk res out =>
      cases res with
      | error m =>
        refine ⟨⟨tool.name, some tool_id, call_type, t_req, some t_resp,
            some (t_resp - t_req), false,
            some (execExcStr
              (ExecExc.execFail tool_id (wrapExecMessage m))),
            if pyTruthy parameters then some parameters else Option.none,
            Option.none, t_resp⟩, ?_, ?_, rfl, by omega, ?_, ?_⟩
        · simp [execute_tool, htool, hrun, recordToolLog, create_log]
        · simp [execute_tool, htool, hrun]
        · simp [execute_tool, htool, hrun]
        · simp [execute_tool, htool, hrun, recordToolLog]
      | ok env =>
        refine ⟨⟨tool.name, some tool_id, call_type, t_req, some t_resp,
            some (t_resp - t_req), true, Option.none,
            if pyTruthy parameters then some parameters else Option.none,
            match pyGet env "result" with
            | some v => if pyTruthy v then some v else Option.none
            | none => Option.none, t_resp⟩, ?_, ?_, rfl, by omega, ?_, ?_⟩
        · simp [execute_tool, htool, hrun, recordToolLog, create_log]
        · simp [execute_tool, htool, hrun]
        · simp [execute_tool, htool, hrun]
        · simp [execute_tool, htool, hrun, recordToolLog]

/-- Witness for C5 at a concrete call on the empty store (the lookup
fails, and exactly one failure row with duration 5 is still written). -/
theorem execute_always_logs_once_witness :
    ∃ row : TbToolLog,
      (execute_tool 9 emptyStore 1 (Val.dict []) "debug" 0 5
          true).2.tool_logs = emptyStore.tool_logs ++ [row]
      ∧ row.duration_ms = some 5 := by
  obtain ⟨row, h1, _h2, h3, _⟩ :=
    execute_always_logs_once 9 emptyStore 1 (Val.dict []) "debug" 0 5
      (by decide)
  exact ⟨row, h1, by simpa using h3⟩

/-- C1: for a found tool the engine runs the concatenation of the
dependency sources and the tool source in an environment whose only
external bindings are `parameters` and `config`, and returns the value
bound to `result` afterwards (`None` if never assigned) plus the
non-empty printed lines; in particular the `addOne`/`result = f() + 1`
scenario returns 2, succeeds, and appends exactly one success log row. -/
theorem execute_runs_combined_code_in_two_binding_env :
    (∀ fuel st tool_id parameters call_type t_req t_resp logOk tool env out,
      get_tool_by_id st tool_id = some tool →
      runProg fuel (combinedCode st tool)
          (baseEnv parameters (mergedConfig st tool_id)) [] =
        (.ok env, out) →
      (execute_tool fuel st tool_id parameters call_type t_req t_resp
          logOk).1 =
        .ok (pyGet env "result", out.filter (fun l => l ≠ "")))
    ∧ (execute_tool 9 c1Store 1 (Val.dict []) "debug" 0 5 true).1 =
        .ok (some (Val.int 2), [])
    ∧ ((execute_tool 9 c1Store 1 (Val.dict []) "debug" 0 5
          true).2.tool_logs.map (fun r => r.is_success)) = [true] := by
  refine ⟨?_, rfl, rfl⟩
  intro fuel st tool_id parameters call_type t_req t_resp logOk tool env out
    htool hrun
  simp [execute_tool, htool, hrun]

/-- Witness for C1: the generic conclusion applied at the concrete
end-to-end store. -/
theorem execute_runs_combined_code_in_two_binding_env_witness :
    (execute_tool 9 c1Store 1 (Val.dict []) "mcp" 0 5 false).1 =
      .ok (some (Val.int 2), []) :=
  execute_runs_combined_code_in_two_binding_env.1 9 c1Store 1 (Val.dict [])
    "mcp" 0 5 false
    (wTool 1 "T"
      [Stmt.assign "result" (Expr.add (Expr.call0 "f") (Expr.intLit 1))]
      (JsonField.parsed []) true)
    [("parameters", Val.dict []), ("config", Val.pynone),
     ("f", Val.fn (Expr.intLit 1)), ("result", Val.int 2)]
    [] rfl rfl

/-- C6 (code bug witness): the combined unit prints `hello` before
faulting — the in-memory buffer holds that line when the fault is caught —
yet `execute_tool` raises `ToolExecutionError` *before* reading the
buffer, so the outcome carries only the wrapped message and no logs, and
the debug endpoint's fallback returns `logs = []`. -/
theorem execute_fault_discards_partial_output :
    runProg 9
        (combinedCode c6Store
          (wTool 1 "P"
            [Stmt.print (Expr.strLit "hello"), Stmt.raiseExc "boom"]
            JsonField.absent true))
        (baseEnv (Val.dict []) (mergedConfig c6Store 1)) []
      = (.error "boom", ["hello"])
    ∧ (execute_tool 9 c6Store 1 (Val.dict []) "debug" 0 5 true).1 =
        .error (ExecExc.execFail 1 (wrapExecMessage "boom"))
    ∧ (debug_tool 9 c6Store 1 (Val.dict []) 0 5 true).1 =
        .ok { result := Option.none, logs := [], success := false,
              error_message :=
                some (execExcStr
                  (ExecExc.execFail 1 (wrapExecMessage "boom"))) } :=
  ⟨rfl, rfl, rfl⟩

/-- C7 (code bug witness): function 1 is referenced by tool 100 through a
live `tb_tool_func` edge, yet `delete_func` succeeds — the in-use check
resolves the tool id against the *function* table — and afterwards the
referencing edge, the function's deploy snapshot and its outgoing
dependency edge all survive as orphans (no cascade).  Tool deletion, by
contrast, does cascade its own rows. -/
theorem delete_func_ignores_tool_reference_and_leaves_orphans :
    delete_func c7Store 1 =
      .ok ({ c7Store with funcs := [wFunc 2 "G" []] }, wFunc 1 "F" [])
    ∧ ({ c7Store with funcs := [wFunc 2 "G" []] } : Store).tool_funcs =
        [⟨100, 1, 0, 0, Option.none, Option.none⟩]
    ∧ ({ c7Store with funcs := [wFunc 2 "G" []] } : Store).func_deploys =
        [⟨1, 1, [], Option.none, 0, 0, Option.none, Option.none⟩]
    ∧ ({ c7Store with funcs := [wFunc 2 "G" []] } : Store).func_depends =
        [⟨1, 2, 0, 0, Option.none, Option.none⟩]
    ∧ delete_tool c7Store 100 =
        .ok ({ c7Store with
               tool_deploys := [], tool_funcs := [],
               tool_configs := [], tools := [] },
             wTool 100 "T" [] JsonField.absent true) :=
  ⟨rfl, rfl, rfl, rfl, rfl⟩

theorem convert_eq_of_ok (t : TbTool)
    (h : paramsParseFails t.parameters = false) :
    convert_to_mcp_tool t = some (mcpDescriptor t) := by
  cases hp : t.parameters with
  | absent => simp [convert_to_mcp_tool, hp, mcpDescriptor, schemaVal]
  | invalid raw => rw [hp] at h; simp [paramsParseFails] at h
  | parsed kvs => simp [convert_to_mcp_tool, hp, mcpDescriptor, schemaVal]

theorem convert_eq_none (t : TbTool)
    (h : paramsParseFails t.parameters = true) :
    convert_to_mcp_tool t = Option.none := by
  cases hp : t.parameters with
  | absent => rw [hp] at h; simp [paramsParseFails] at h
  | invalid raw => simp [convert_to_mcp_tool, hp]
  | parsed kvs => rw [hp] at h; simp [paramsParseFails] at h

theorem filter_filterMap_convert (l : List TbTool) :
    (l.filter (fun t => t.is_enabled)).filterMap convert_to_mcp_tool =
      (l.filter
        (fun t => t.is_enabled && !paramsParseFails t.parameters)).map
        mcpDescriptor := by
  induction l with
  | nil => rfl
  | cons t l ih =>
    by_cases hen : t.is_enabled
    · by_cases hp : paramsParseFails t.parameters
      · simp [List.filter_cons, hen, hp, convert_eq_none t hp, ih]
      · have hp' : paramsParseFails t.parameters = false := by
          simpa using hp
        simp [List.filter_cons, hen, hp', convert_eq_of_ok t hp', ih]
    · have hen' : t.is_enabled = false := by simpa using hen
      simp [List.filter_cons, hen', ih]

theorem length_insertDescById (t : TbTool) (l : List TbTool) :
    (insertDescById t l).length = l.length + 1 := by
  induction l with
  | nil => rfl
  | cons u rest ih =>
    by_cases h : u.id ≤ t.id
    · simp [insertDescById, h]
    · simp [insertDescById, h, ih]

theorem length_sortDescById (l : List TbTool) :
    (sortDescById l).length = l.length := by
  induction l with
  | nil => rfl
  | cons t rest ih =>
    show (insertDescById t (sortDescById rest)).length = rest.length + 1
    rw [length_insertDescById, ih]

theorem query_tools_page_all (st : Store) (h : st.tools.length ≤ 1000) :
    query_tools_page st 1 1000 = sortDescById st.tools := by
  rw [query_tools_page]
  norm_num
  rw [length_sortDescById]
  exact h

/-- C8 (amended): `list_tools` reads one id-descending page of 1000 tools;
for a catalog of at most 1000 tools that is the whole catalog, and the
result is then a descriptor for exactly those tools that are enabled and
whose stored schema does not fail to parse — the others are dropped
without aborting the batch. -/
theorem list_tools_exactly_enabled_parseable (st : Store)
    (hsize : st.tools.length ≤ 1000) :
    get_enabled_tools st =
      ((sortDescById st.tools).filter
        (fun t => t.is_enabled && !paramsParseFails t.parameters)).map
        mcpDescriptor := by
  rw [get_enabled_tools, query_tools_page_all st hsize,
    filter_filterMap_convert]

/-- Witness for C8's amended statement: the disabled tool and the tool
with an unparseable schema are dropped, the valid enabled one is listed. -/
theorem list_tools_exactly_enabled_parseable_witness :
    get_enabled_tools
        { emptyStore with
          tools := [wTool 1 "a" [] (JsonField.parsed []) true,
                    wTool 2 "b" [] (JsonField.invalid "x") true,
                    wTool 3 "c" [] JsonField.absent false] } =
      [mcpDescriptor (wTool 1 "a" [] (JsonField.parsed []) true)] := by
  have h := list_tools_exactly_enabled_parseable
    { emptyStore with
      tools := [wTool 1 "a" [] (JsonField.parsed []) true,
                wTool 2 "b" [] (JsonField.invalid "x") true,
                wTool 3 "c" [] JsonField.absent false] }
    (by decide)
  exact h.trans (by rfl)

set_option maxRecDepth 100000 in
/-- C8 (counterexample): with 1001 enabled, parseable tools in the
catalog, the listing returns only 1000 descriptors — the claim's "queries
the full catalog … exactly those tools" fails beyond the hard-coded page
of 1000. -/
theorem list_tools_misses_tool_beyond_page_limit :
    c8Store.tools.length = 1001
    ∧ c8Store.tools.all
        (fun t => t.is_enabled && !paramsParseFails t.parameters) = true
    ∧ (get_enabled_tools c8Store).length = 1000 :=
  ⟨rfl, rfl, rfl⟩

/-- C9: `call_tool` answers with a normal frame list in every failure
mode — tool absent, tool disabled, execution raising — and that list is
the single `{error: message}` envelope; nothing propagates out of the
handler. -/
theorem call_tool_failures_become_error_frames :
    (∀ fuel st name arguments t_req t_resp logOk,
      get_tool_by_name st name = Option.none →
      (mcp_execute_tool fuel st name arguments t_req t_resp logOk).1 =
        [errorFrame (mcpExcStr (.toolNotFound name))])
    ∧ (∀ fuel st name arguments t_req t_resp logOk tool,
      get_tool_by_name st name = some tool →
      tool.is_enabled = false →
      (mcp_execute_tool fuel st name arguments t_req t_resp logOk).1 =
        [errorFrame (mcpExcStr (.toolDisabled name))])
    ∧ (∀ fuel st name arguments t_req t_resp logOk tool e st2,
      get_tool_by_name st name = some tool →
      tool.is_enabled = true →
      execute_tool fuel st tool.id arguments "mcp" t_req t_resp logOk =
        (.error e, st2) →
      (mcp_execute_tool fuel st name arguments t_req t_resp logOk).1 =
        [errorFrame (mcpExcStr (.toolExecution name (execExcStr e)))]) := by
  refine ⟨?_, ?_, ?_⟩
  · intro fuel st name arguments t_req t_resp logOk hname
    simp [mcp_execute_tool, process_tool_execution, hname]
  · intro fuel st name arguments t_req t_resp logOk tool hname hdis
    simp [mcp_execute_tool, process_tool_execution, hname, hdis]
  · intro fuel st name arguments t_req t_resp logOk tool e st2 hname hen
      hexec
    simp [mcp_execute_tool, process_tool_execution, hname, hen, hexec]

/-- Witness for C9: calling an absent tool name on the empty store yields
exactly the error envelope frame. -/
theorem call_tool_failures_become_error_frames_witness :
    (mcp_execute_tool 9 emptyStore "missing" (Val.dict []) 0 5 true).1 =
      [errorFrame (mcpExcStr (.toolNotFound "missing"))] :=
  call_tool_failures_become_error_frames.1 9 emptyStore "missing"
    (Val.dict []) 0 5 true rfl

theorem find?_append_of_none {α : Type} (p : α → Bool) (l : List α)
    (x : α) (h : l.find? p = Option.none) (hx : p x = true) :
    (l ++ [x]).find? p = some x := by
  induction l with
  | nil => exact List.find?_cons_of_pos _ hx
  | cons a rest ih =>
    by_cases ha : p a
    · rw [List.find?_cons_of_pos _ ha] at h
      exact absurd h (by simp)
    · rw [List.find?_cons_of_neg _ ha] at h
      rw [List.cons_append, List.find?_cons_of_neg _ ha]
      exact ih h

/-- C10: `create_func` commits the new row before validating the
dependency list, so when the cycle check raises, the function is already
in the catalog — findable by name and by its fresh id — while not a
single dependency edge was written. -/
theorem create_func_commits_before_cycle_check :
    ∀ st data user now e,
      get_func_by_name st data.name = Option.none →
      get_func_by_id st st.next_func_id = Option.none →
      data.depend_ids.isEmpty = false →
      check_circular_dependency (dependsEdges st) st.next_func_id
          data.depend_ids = .error e →
      create_func st data user now =
        (.error (.circular e),
         { st with
           funcs := st.funcs ++
             [⟨st.next_func_id, data.name, data.description, data.code,
               Option.none, now, now, user, user⟩],
           next_func_id := st.next_func_id + 1 })
      ∧ get_func_by_name
            { st with
              funcs := st.funcs ++
                [⟨st.next_func_id, data.name, data.description, data.code,
                  Option.none, now, now, user, user⟩],
              next_func_id := st.next_func_id + 1 } data.name =
          some ⟨st.next_func_id, data.name, data.description, data.code,
                Option.none, now, now, user, user⟩
      ∧ get_func_by_id
            { st with
              funcs := st.funcs ++
                [⟨st.next_func_id, data.name, data.description, data.code,
                  Option.none, now, now, user, user⟩],
              next_func_id := st.next_func_id + 1 } st.next_func_id =
          some ⟨st.next_func_id, data.name, data.description, data.code,
                Option.none, now, now, user, user⟩
      ∧ ({ st with
           funcs := st.funcs ++
             [⟨st.next_func_id, data.name, data.description, data.code,
               Option.none, now, now, user, user⟩],
           next_func_id := st.next_func_id + 1 } : Store).func_depends =
          st.func_depends := by
  intro st data user now e hname hid hdeps hcheck
  have hcheck' : check_circular_dependency
      (dependsEdges
        { st with
          funcs := st.funcs ++
            [⟨st.next_func_id, data.name, data.description, data.code,
              Option.none, now, now, user, user⟩],
          next_func_id := st.next_func_id + 1 })
      st.next_func_id data.depend_ids = .error e := hcheck
  refine ⟨?_, ?_, ?_, rfl⟩
  · simp [create_func, hname, hdeps, hcheck']
  · have hname' : st.funcs.find? (fun g => g.name == data.name) =
        Option.none := hname
    exact find?_append_of_none _ st.funcs _ hname' (by simp)
  · have hid' : st.funcs.find? (fun g => g.id == st.next_func_id) =
        Option.none := hid
    exact find?_append_of_none _ st.funcs _ hid' (by simp)

/-- Witness for C10: creating a function that names its own fresh id as a
dependency raises the self-cycle error, yet the row is committed with no
edges. -/
theorem create_func_commits_before_cycle_check_witness :
    create_func emptyStore ⟨"a", Option.none, [], [1]⟩ Option.none 0 =
      (.error (.circular ⟨1, []⟩),
       { emptyStore with
         funcs := [⟨1, "a", Option.none, [], Option.none, 0, 0, Option.none,
                    Option.none⟩],
         next_func_id := 2 }) := by
  have h := (create_func_commits_before_cycle_check emptyStore
    ⟨"a", Option.none, [], [1]⟩ Option.none 0 ⟨1, []⟩ rfl rfl rfl rfl).1
  exact h.trans (by rfl)

end EasyMcp
